import Mathlib

/-
Verification of the sc-lang/go-sc SC configuration-language implementation.

This file contains a shallow embedding of the scparse package (lexer, parser,
printer, AST node construction) and of the relevant parts of the sc package
(value decoding for null and variable nodes, variable lookup, map encoding),
followed by theorems about the embedded definitions.

Conventions used throughout the embedding:
  * Go strings / []byte input is modelled as Lean `String` / `List Char`.
    The input is assumed to be valid UTF-8 (Go replaces malformed sequences
    with U+FFFD; malformed byte sequences are not representable here).
  * Go machine integers are modelled as `Nat`/`Int` with explicit range
    checks where the Go code checks ranges (strconv parse functions).
  * Go float64 is modelled exactly: a float64 value is represented by the
    rational number it denotes (type `Q` below), and strconv.ParseFloat is
    modelled as the exact decimal value rounded to binary64 precision
    (round-to-nearest, ties-to-even) with overflow reported as failure,
    matching Go's ErrRange behaviour.
  * Functions that Go implements with unbounded loops are given an explicit
    fuel parameter, with fuel bounds large enough for every reachable input.
-/

set_option maxRecDepth 8000

namespace SC

/-- A source position in the original input text: 1-indexed line, 1-indexed
rune-aware column, and 0-indexed byte offset (scparse.Pos). -/
structure Pos where
  line : Nat
  column : Nat
  byte : Nat
deriving DecidableEq

/-- A comment, either line or block style, with the delimiters stripped
(scparse.Comment). -/
structure Comment where
  pos : Pos
  text : String
  isBlock : Bool
deriving DecidableEq

/-- All comments associated with a node (scparse.CommentGroup). -/
structure CommentGroup where
  head : List Comment := []
  inline : List Comment := []
  foot : List Comment := []
  inner : List Comment := []
deriving DecidableEq

/-- The empty comment group, the zero value of scparse.CommentGroup. -/
def CommentGroup.empty : CommentGroup := {}

/- Character classification helpers from lex.go.  unicode.IsLetter and
unicode.IsDigit are modelled on their ASCII fragment: the full Unicode
tables are not reproduced, every input considered in the theorems below is
ASCII, and on ASCII characters these functions agree with the Go ones. -/

/-- isSpace from lex.go: space or tab. -/
def goIsSpace (c : Char) : Bool := c = ' ' || c = '\t'

/-- isEndOfLine from lex.go: carriage return or newline. -/
def goIsEndOfLine (c : Char) : Bool := c = '\r' || c = '\n'

/-- unicode.IsLetter restricted to ASCII. -/
def goIsLetter (c : Char) : Bool := c.isAlpha

/-- unicode.IsDigit restricted to ASCII. -/
def goIsDigit (c : Char) : Bool := c.isDigit

/-- isAlphaNumeric from lex.go: underscore, letter or digit. -/
def goIsAlphaNumeric (c : Char) : Bool := c = '_' || goIsLetter c || goIsDigit c

/- ===== Exact model of Go float64 arithmetic ===== -/

/-- An exact rational number `num / den` (`den` is kept positive), used to
model Go float64 values.  Mathlib's `ℚ` is avoided because the embedding
must evaluate inside the kernel. -/
structure Q where
  num : Int
  den : Nat
deriving DecidableEq

/-- Build a `Q` in lowest terms. -/
def Q.normalize (n : Int) (d : Nat) : Q :=
  let g := Int.gcd n d
  if g = 0 then ⟨0, 1⟩ else ⟨Int.tdiv n g, d / g⟩

def Q.ofInt (i : Int) : Q := ⟨i, 1⟩

def Q.ofNat (n : Nat) : Q := ⟨n, 1⟩

def Q.isZero (a : Q) : Bool := a.num = 0

def Q.neg (a : Q) : Q := ⟨-a.num, a.den⟩

def Q.abs (a : Q) : Q := ⟨|a.num|, a.den⟩

def Q.mul (a b : Q) : Q := Q.normalize (a.num * b.num) (a.den * b.den)

def Q.sub (a b : Q) : Q := Q.normalize (a.num * b.den - b.num * a.den) (a.den * b.den)

/-- Value comparison `a ≤ b` (denominators are positive). -/
def Q.le (a b : Q) : Bool := a.num * b.den ≤ b.num * a.den

/-- Value comparison `a < b`. -/
def Q.lt (a b : Q) : Bool := a.num * b.den < b.num * a.den

/-- Value equality; Go float64 `==` on the represented values. -/
def Q.valEq (a b : Q) : Bool := a.num * b.den = b.num * a.den

/-- The power `2^e` as an exact rational, for arbitrary integer `e`. -/
def Q.pow2 (e : Int) : Q :=
  if 0 ≤ e then ⟨Int.ofNat (Nat.pow 2 e.toNat), 1⟩ else ⟨1, Nat.pow 2 (-e).toNat⟩

/-- Truncation toward zero, the behaviour of Go's float-to-int conversion
for in-range values. -/
def Q.trunc (a : Q) : Int := Int.tdiv a.num a.den

/-- Floor. -/
def Q.floorI (a : Q) : Int := Int.fdiv a.num a.den

/-- Round to the nearest integer, ties to even (IEEE 754 default). -/
def Q.roundHalfEven (a : Q) : Int :=
  let fl := a.floorI
  let r : Int := a.num - fl * a.den
  if 2 * r < (a.den : Int) then fl
  else if (a.den : Int) < 2 * r then fl + 1
  else if fl % 2 = 0 then fl else fl + 1

/-- For `1 ≤ s`: the largest `k` (starting the search from `k0`) with
`2^k ≤ s`.  Fuel-based linear search; callers pass enough fuel. -/
def qLog2Up : Nat → Q → Nat → Nat
  | 0, _, k => k
  | f + 1, s, k => if Q.le (Q.pow2 ((k : Int) + 1)) s then qLog2Up f s (k + 1) else k

/-- For `s < 1`: the smallest `k ≥ k0` with `2^(-k) ≤ s`. -/
def qLog2Down : Nat → Q → Nat → Nat
  | 0, _, k => k
  | f + 1, s, k => if Q.le (Q.pow2 (-(k : Int))) s then k else qLog2Down f s (k + 1)

/-- Floor of log2 of `s`, for positive `s` with `2^(-1022) ≤ s < 2^1024`
(the only range in which `round64` consults it; the fuel of 1100 covers
that whole range). -/
def qFloorLog2 (s : Q) : Int :=
  if Q.le (Q.ofNat 1) s then (qLog2Up 1100 s 0 : Int) else -(qLog2Down 1100 s 1 : Int)

/-- Round an exact rational to the nearest binary64 value (ties to even).
`none` models overflow to ±Inf, which strconv.ParseFloat reports as
ErrRange.  Gradual underflow to subnormals or to zero does not fail,
matching Go.  The sticky bits of the model: a finite binary64 value is a
rational `m * 2^ulp` with `|m| ≤ 2^53` and the exponent in range, and this
function returns exactly that rational. -/
def round64 (v : Q) : Option Q :=
  if v.isZero then some (Q.ofNat 0)
  else
    let s := v.abs
    if Q.le (Q.pow2 1024) s then none
    else
      let ulpExp : Int := if Q.lt s (Q.pow2 (-1022)) then -1074 else qFloorLog2 s - 52
      let m : Int := (s.mul (Q.pow2 (-ulpExp))).roundHalfEven
      let r : Q := if 0 ≤ ulpExp then Q.ofInt (m * Int.ofNat (Nat.pow 2 ulpExp.toNat))
        else Q.normalize m (Nat.pow 2 (-ulpExp).toNat)
      let r : Q := if v.num < 0 then r.neg else r
      if Q.le (Q.pow2 1024) r.abs then none else some r

/-- Go conversion float64 → int64 (truncation toward zero); for values out
of the int64 range the Go spec leaves the result implementation-defined and
amd64 produces the minimum int64, which is modelled here. -/
def int64OfFloat (f : Q) : Int :=
  let t := f.trunc
  let b : Int := Int.ofNat (Nat.pow 2 63)
  if -b ≤ t ∧ t < b then t else -b

/-- Go conversion float64 → uint64 as lowered on amd64: values below `2^63`
go through int64, larger values are offset by `2^63` and the top bit is
set with xor. -/
def uint64OfFloat (f : Q) : Nat :=
  let m : Int := Int.ofNat (Nat.pow 2 64)
  if Q.lt f (Q.pow2 63) then ((int64OfFloat f).emod m).toNat
  else ((int64OfFloat (f.sub (Q.pow2 63))).emod m).toNat ^^^ Nat.pow 2 63

/-- Go conversion int64 → float64 (rounds to nearest; never overflows for
int64 inputs, so the `getD` default is never used). -/
def float64OfInt (i : Int) : Q := (round64 (Q.ofInt i)).getD (Q.ofNat 0)

/-- Go conversion uint64 → float64. -/
def float64OfNat (n : Nat) : Q := (round64 (Q.ofNat n)).getD (Q.ofNat 0)

/- ===== strconv parse functions ===== -/

/-- Numeric value of a list of decimal digit characters. -/
def digitsVal (l : List Char) : Nat :=
  l.foldl (fun acc c => acc * 10 + (c.toNat - '0'.toNat)) 0

/-- Go strconv.ParseUint(s, 10, 64): decimal digits only (no sign permitted),
error on empty input, non-digit characters, or a value that does not fit in
64 bits. -/
def goParseUint (s : String) : Option Nat :=
  let cs := s.data
  if cs ≠ [] ∧ cs.all Char.isDigit then
    let v := digitsVal cs
    if v < Nat.pow 2 64 then some v else none
  else none

/-- Go strconv.ParseInt(s, 10, 64): optional leading sign, then decimal
digits; error on empty digits or a value outside the int64 range. -/
def goParseInt (s : String) : Option Int :=
  match s.data with
  | [] => none
  | c :: rest =>
    let p : Bool × List Char :=
      if c = '-' then (true, rest) else if c = '+' then (false, rest) else (false, c :: rest)
    let neg := p.1
    let digits := p.2
    if digits ≠ [] ∧ digits.all Char.isDigit then
      let v := digitsVal digits
      if neg then
        if v ≤ Nat.pow 2 63 then some (-(v : Int)) else none
      else
        if v < Nat.pow 2 63 then some (v : Int) else none
    else none

/-- Split a leading run of decimal digits off a character list. -/
def takeDigits : List Char → List Char × List Char
  | [] => ([], [])
  | c :: r =>
    if c.isDigit then
      let p := takeDigits r
      (c :: p.1, p.2)
    else ([], c :: r)

/-- The decimal literal syntax accepted by strconv.ParseFloat, decomposed:
sign, integer digits, fraction digits, exponent.  Returns the exact decimal
value, or `none` on a syntax error.  Hex floats, "inf"/"nan" forms and
digit-separating underscores are not modelled: the scparse lexer can never
produce a number token containing them (letters other than e/E and a second
sign terminate number scanning), so they are unreachable in this program. -/
def decimalFloatVal (cs : List Char) : Option Q :=
  let sp : Bool × List Char :=
    match cs with
    | '-' :: r => (true, r)
    | '+' :: r => (false, r)
    | r => (false, r)
  let neg := sp.1
  let ipr := takeDigits sp.2
  let fpr : List Char × List Char :=
    match ipr.2 with
    | '.' :: r => takeDigits r
    | r => ([], r)
  let mant := ipr.1 ++ fpr.1
  if mant = [] then none
  else
    let er : Option (Int × List Char) :=
      match fpr.2 with
      | 'e' :: r | 'E' :: r =>
        let esp : Bool × List Char :=
          match r with
          | '-' :: r2 => (true, r2)
          | '+' :: r2 => (false, r2)
          | r2 => (false, r2)
        let edr := takeDigits esp.2
        if edr.1 = [] then none
        else some (if esp.1 then -(digitsVal edr.1 : Int) else (digitsVal edr.1 : Int), edr.2)
      | r => some (0, r)
    match er with
    | none => none
    | some (e10, rest) =>
      if rest ≠ [] then none
      else
        let exp : Int := e10 - fpr.1.length
        let m : Int := if neg then -(digitsVal mant : Int) else (digitsVal mant : Int)
        some (if 0 ≤ exp then Q.ofInt (m * Int.ofNat (Nat.pow 10 exp.toNat))
          else Q.normalize m (Nat.pow 10 (-exp).toNat))

/-- Go strconv.ParseFloat(s, 64): decimal syntax, exact value rounded to
binary64; `none` on syntax error or on overflow (ErrRange). -/
def goParseFloat (s : String) : Option Q := (decimalFloatVal s.data).bind round64

/- ===== goQuote: Go %q formatting (strconv.Quote) ===== -/

/-- One hex digit. -/
def hexDigit (n : Nat) : Char :=
  if n < 10 then Char.ofNat ('0'.toNat + n) else Char.ofNat ('a'.toNat + n - 10)

/-- strconv.Quote escaping of a single character.  Printable non-ASCII
characters are passed through unescaped (Go escapes only non-printable
ones; the non-printable non-ASCII cases are not modelled as no reachable
call site produces them). -/
def goQuoteChar (c : Char) : List Char :=
  if c = '"' then ['\\', '"']
  else if c = '\\' then ['\\', '\\']
  else if c = '\x07' then ['\\', 'a']
  else if c = '\x08' then ['\\', 'b']
  else if c = '\x0c' then ['\\', 'f']
  else if c = '\n' then ['\\', 'n']
  else if c = '\r' then ['\\', 'r']
  else if c = '\t' then ['\\', 't']
  else if c = '\x0b' then ['\\', 'v']
  else if c.toNat < 32 || c.toNat = 127 then
    ['\\', 'x', hexDigit (c.toNat / 16), hexDigit (c.toNat % 16)]
  else [c]

/-- Go %q of a string: double quotes around the escaped characters. -/
def goQuote (s : String) : String :=
  "\"" ++ String.mk (s.data.foldr (fun c acc => goQuoteChar c ++ acc) []) ++ "\""

/- ===== AST nodes (node.go) ===== -/

/-- scparse.NodeType. -/
inductive NodeType where
  | nullT
  | boolT
  | numberT
  | stringT
  | interpolatedStringT
  | rawStringT
  | identifierT
  | variableT
  | listT
  | memberT
  | dictionaryT
  | endT
deriving DecidableEq

/-- The data of a scparse.NumberNode apart from position and comments: the
value parsed into up to three coexisting representations with validity
flags, plus the raw literal text. -/
structure NumberData where
  isUint : Bool := false
  isInt : Bool := false
  isFloat : Bool := false
  uint64 : Nat := 0
  int64 : Int := 0
  float64 : Q := ⟨0, 1⟩
  raw : String := ""
deriving DecidableEq

/-- newNumber from node.go: parse `raw` into a NumberData.  Mirrors the Go
control flow exactly: unsigned parse, signed parse with the -0 fix-up,
int-implies-float, otherwise float parse with the integer-overflow check
for literals written without '.', 'e' or 'E', the float-to-int and
float-to-uint reclassification guards (written verbatim, comparing the
round-tripped conversion with the float value), and the final
at-least-one-representation check. -/
def newNumber (raw : String) : Except String NumberData :=
  let n0 : NumberData := { raw := raw }
  let n1 : NumberData :=
    match goParseUint raw with
    | some u => { n0 with isUint := true, uint64 := u }
    | none => n0
  let n2 : NumberData :=
    match goParseInt raw with
    | some i =>
      let n := { n1 with isInt := true, int64 := i }
      if i = 0 then { n with isUint := true, uint64 := 0 } else n
    | none => n1
  if n2.isInt then
    Except.ok { n2 with isFloat := true, float64 := float64OfInt n2.int64 }
  else
    match goParseFloat raw with
    | some f =>
      if ¬ (raw.data.any fun c => c = '.' || c = 'e' || c = 'E') then
        Except.error ("integer overflow: " ++ goQuote raw)
      else
        let n3 : NumberData := { n2 with isFloat := true, float64 := f }
        let n4 : NumberData :=
          if ¬ n3.isInt ∧ Q.valEq (float64OfInt (int64OfFloat f)) f then
            { n3 with isInt := true, int64 := int64OfFloat f }
          else n3
        let n5 : NumberData :=
          if ¬ n4.isUint ∧ Q.valEq (float64OfNat (uint64OfFloat f)) f then
            { n4 with isUint := true, uint64 := uint64OfFloat f }
          else n4
        if ¬ n5.isUint ∧ ¬ n5.isInt ∧ ¬ n5.isFloat then
          Except.error ("invalid number syntax: " ++ goQuote raw)
        else Except.ok n5
    | none =>
      if ¬ n2.isUint ∧ ¬ n2.isInt ∧ ¬ n2.isFloat then
        Except.error ("invalid number syntax: " ++ goQuote raw)
      else Except.ok n2

/-- The AST (node.go).  Each constructor carries the node's position and
comment group like the corresponding Go struct.  A VariableNode wraps an
IdentifierNode; its fields are inlined here as `idPos`, `idCg`, `name`.
`endN` is the internal node marking the end of a list or dictionary; it
only exists to aid parsing and is never added to the tree. -/
inductive Node where
  | nullN (pos : Pos) (cg : CommentGroup)
  | boolN (pos : Pos) (cg : CommentGroup) (tru : Bool)
  | numberN (pos : Pos) (cg : CommentGroup) (num : NumberData)
  | stringN (pos : Pos) (cg : CommentGroup) (value : String)
  | interpN (pos : Pos) (cg : CommentGroup) (components : List Node)
  | rawStringN (pos : Pos) (cg : CommentGroup) (value : String)
  | identN (pos : Pos) (cg : CommentGroup) (name : String)
  | varN (pos : Pos) (cg : CommentGroup) (idPos : Pos) (idCg : CommentGroup) (name : String)
  | listN (pos : Pos) (cg : CommentGroup) (elements : List Node)
  | memberN (pos : Pos) (cg : CommentGroup) (key : Node) (value : Node)
  | dictN (pos : Pos) (cg : CommentGroup) (members : List Node)
  | endN (pos : Pos) (cg : CommentGroup)

/-- Node.Type(). -/
def Node.typ : Node → NodeType
  | .nullN .. => .nullT
  | .boolN .. => .boolT
  | .numberN .. => .numberT
  | .stringN .. => .stringT
  | .interpN .. => .interpolatedStringT
  | .rawStringN .. => .rawStringT
  | .identN .. => .identifierT
  | .varN .. => .variableT
  | .listN .. => .listT
  | .memberN .. => .memberT
  | .dictN .. => .dictionaryT
  | .endN .. => .endT

/-- Node.Position(). -/
def Node.position : Node → Pos
  | .nullN pos _ => pos
  | .boolN pos _ _ => pos
  | .numberN pos _ _ => pos
  | .stringN pos _ _ => pos
  | .interpN pos _ _ => pos
  | .rawStringN pos _ _ => pos
  | .identN pos _ _ => pos
  | .varN pos _ _ _ _ => pos
  | .listN pos _ _ => pos
  | .memberN pos _ _ _ => pos
  | .dictN pos _ _ => pos
  | .endN pos _ => pos

/-- Node.Comments(). -/
def Node.comments : Node → CommentGroup
  | .nullN _ cg => cg
  | .boolN _ cg _ => cg
  | .numberN _ cg _ => cg
  | .stringN _ cg _ => cg
  | .interpN _ cg _ => cg
  | .rawStringN _ cg _ => cg
  | .identN _ cg _ => cg
  | .varN _ cg _ _ _ => cg
  | .listN _ cg _ => cg
  | .memberN _ cg _ _ => cg
  | .dictN _ cg _ => cg
  | .endN _ cg => cg

/-- Apply an update to a node's comment group (the Go parser mutates the
group returned by Node.Comments() in place). -/
def Node.withCG (f : CommentGroup → CommentGroup) : Node → Node
  | .nullN pos cg => .nullN pos (f cg)
  | .boolN pos cg b => .boolN pos (f cg) b
  | .numberN pos cg n => .numberN pos (f cg) n
  | .stringN pos cg v => .stringN pos (f cg) v
  | .interpN pos cg c => .interpN pos (f cg) c
  | .rawStringN pos cg v => .rawStringN pos (f cg) v
  | .identN pos cg n => .identN pos (f cg) n
  | .varN pos cg ip icg n => .varN pos (f cg) ip icg n
  | .listN pos cg e => .listN pos (f cg) e
  | .memberN pos cg k v => .memberN pos (f cg) k v
  | .dictN pos cg m => .dictN pos (f cg) m
  | .endN pos cg => .endN pos (f cg)


/- ===== Lexer (lex.go) ===== -/

/-- scparse.tokenType. -/
inductive TokenType where
  | errorT
  | eofT
  | boolTk
  | numberTk
  | stringTk
  | rawStringTk
  | identifierTk
  | commentTk
  | symbolTk
  | leftSquareParen
  | rightSquareParen
  | leftCurlyParen
  | rightCurlyParen
  | variableStart
  | quoteTk
  | colonTk
  | commaTk
  | nullTk
deriving DecidableEq

/-- tokenType.String(). -/
def TokenType.str : TokenType → String
  | .errorT => "Error"
  | .eofT => "EOF"
  | .boolTk => "Bool"
  | .numberTk => "Number"
  | .stringTk => "String"
  | .rawStringTk => "RawString"
  | .identifierTk => "Identifier"
  | .commentTk => "Comment"
  | .symbolTk => "Symbol"
  | .leftSquareParen => "LeftSquareParen"
  | .rightSquareParen => "RightSquareParen"
  | .leftCurlyParen => "LeftCurlyParen"
  | .rightCurlyParen => "RightCurlyParen"
  | .variableStart => "VariableStart"
  | .quoteTk => "Quote"
  | .colonTk => "Colon"
  | .commaTk => "Comma"
  | .nullTk => "Null"

/-- Token types strictly greater than tokenSymbol (symbols and keywords). -/
def TokenType.isSymbolic (t : TokenType) : Bool :=
  match t with
  | .leftSquareParen | .rightSquareParen | .leftCurlyParen | .rightCurlyParen
  | .variableStart | .quoteTk | .colonTk | .commaTk | .nullTk => true
  | _ => false

/-- A token scanned by the lexer (scparse.token). -/
structure Token where
  typ : TokenType
  pos : Pos
  val : String
deriving DecidableEq

/-- UTF-8 byte length of a character list, the Go len() of the string. -/
def utf8Len (l : List Char) : Nat := l.foldl (fun a c => a + c.utf8Size) 0

/-- Uppercase hex digit. -/
def hexDigitUpper (n : Nat) : Char :=
  if n < 10 then Char.ofNat ('0'.toNat + n) else Char.ofNat ('A'.toNat + n - 10)

/-- Hex digits of `n`, most significant first (fuel 16 covers all rune values). -/
def natToHexAux : Nat → Nat → List Char
  | 0, _ => []
  | f + 1, n => if n = 0 then [] else natToHexAux f (n / 16) ++ [hexDigitUpper (n % 16)]

/-- At least four uppercase hex digits, zero padded. -/
def hexUpper4 (n : Nat) : String :=
  let ds := natToHexAux 16 n
  String.mk (List.replicate (4 - ds.length) '0' ++ ds)

/-- Go fmt %#U of a rune: `U+XXXX 'c'` with the rune quoted using Go rune
escapes.  `none` is the eof pseudo-rune -1, whose %#U rendering is not
exercised by any theorem. -/
def fmtRuneU : Option Char → String
  | none => "U+-1"
  | some c => "U+" ++ hexUpper4 c.toNat ++ " '" ++ String.mk (goQuoteChar c) ++ "'"

/-- Go fmt %.10q: quote after truncating to ten runes. -/
def goQuoteTrunc10 (s : String) : String := goQuote (String.mk (s.data.take 10))

/-- token.String(). -/
def Token.str (t : Token) : String :=
  if t.typ = .eofT then "EOF"
  else if t.typ = .errorT then t.val
  else if t.typ.isSymbolic then "<" ++ t.val ++ ">"
  else if (t.typ = .stringTk || t.typ = .rawStringTk || t.typ = .identifierTk
      || t.typ = .commentTk) && utf8Len t.val.data > 10 then
    "<" ++ t.typ.str ++ ": " ++ goQuoteTrunc10 t.val ++ ">..."
  else "<" ++ t.typ.str ++ ": " ++ goQuote t.val ++ ">"

/-- The mutable state of the scanner (scparse.lexer).  The token channel is
modelled as the list of tokens emitted so far; positions `pos`, `start` and
`width` are indices into the rune list (each Lean `Char` is one rune; byte
offsets for emitted positions are recomputed with `utf8Len`). -/
structure LexState where
  input : List Char
  pos : Nat := 0
  start : Nat := 0
  width : Nat := 0
  line : Nat := 1
  startLine : Nat := 1
  insertComma : Bool := false
  strMode : Bool := false
  tokens : List Token := []

/-- lexer.next: read one rune, tracking newline count and rune width. -/
def LexState.nextRune (l : LexState) : Option Char × LexState :=
  match l.input[l.pos]? with
  | none => (none, { l with width := 0 })
  | some c =>
    let l' := { l with width := 1, pos := l.pos + 1 }
    (some c, if c = '\n' then { l' with line := l'.line + 1 } else l')

/-- lexer.backup: step back one rune, reverting the newline count. -/
def LexState.backup (l : LexState) : LexState :=
  let p := l.pos - l.width
  let l' := { l with pos := p }
  if l.width = 1 ∧ l'.input[p]? = some '\n' then { l' with line := l'.line - 1 } else l'

/-- lexer.peek. -/
def LexState.peekRune (l : LexState) : Option Char × LexState :=
  let (r, l') := l.nextRune
  (r, l'.backup)

/-- lexer.tokenPos: position of the token that starts at `start`. -/
def LexState.tokenPos (l : LexState) : Pos :=
  let pre := l.input.take l.start
  let sinceNL := (pre.reverse.takeWhile (fun c => c ≠ '\n')).length
  { line := l.startLine, column := sinceNL + 1, byte := utf8Len pre }

/-- The raw text of the pending token, input[start:pos]. -/
def LexState.pending (l : LexState) : String :=
  String.mk ((l.input.drop l.start).take (l.pos - l.start))

/-- lexer.emit. -/
def LexState.emit (l : LexState) (t : TokenType) : LexState :=
  let tok : Token := { typ := t, pos := l.tokenPos, val := l.pending }
  { l with tokens := l.tokens ++ [tok], start := l.pos, startLine := l.line }

/-- lexer.emitAutomaticComma: emit a synthetic comma token if the
insertComma flag is set, without updating start/startLine; clear the flag. -/
def LexState.emitAutomaticComma (l : LexState) : LexState :=
  if ¬ l.insertComma then l
  else
    let tok : Token := { typ := .commaTk, pos := l.tokenPos, val := "automatic ," }
    { l with insertComma := false, tokens := l.tokens ++ [tok] }

/-- lexer.ignore: skip pending input, counting the newlines in it. -/
def LexState.ignore (l : LexState) : LexState :=
  let n := ((l.input.drop l.start).take (l.pos - l.start)).count '\n'
  { l with line := l.line + n, start := l.pos, startLine := l.line + n }

/-- lexer.accept. -/
def LexState.accept (l : LexState) (valid : List Char) : Bool × LexState :=
  let (r, l') := l.nextRune
  match r with
  | some c => if valid.contains c then (true, l') else (false, l'.backup)
  | none => (false, l'.backup)

/-- lexer.acceptRun (fuel-based; the fresh fuel passed by callers always
exceeds the remaining input length). -/
def LexState.acceptRunF : Nat → LexState → List Char → LexState
  | 0, l, _ => l
  | f + 1, l, valid =>
    let (ok, l') := l.accept valid
    if ok then LexState.acceptRunF f l' valid else l'

def LexState.acceptRun (l : LexState) (valid : List Char) : LexState :=
  LexState.acceptRunF (l.input.length + 2) l valid

/-- lexer.errorf: emit an error token; the caller then stops the machine. -/
def LexState.emitError (l : LexState) (msg : String) : LexState :=
  let tok : Token := { typ := .errorT, pos := l.tokenPos, val := msg }
  { l with tokens := l.tokens ++ [tok] }

/-- lexer.atTerminator: whether the next rune may validly terminate an
identifier or variable name. -/
def LexState.atTerminator (l : LexState) : Bool :=
  match l.peekRune.1 with
  | none => true
  | some c => goIsSpace c || goIsEndOfLine c || c = ',' || c = ':' || c = '.' || c = ']' || c = '}'

/-- The state functions of the lexer state machine (stateFn in lex.go). -/
inductive LexFn where
  | text
  | space
  | comment
  | lineComment
  | blockComment
  | quote
  | strBody
  | rawQuote
  | number
  | identifier
  | variableFn
deriving DecidableEq

/-- lexText: dispatch on the next rune.  `none` as next state terminates. -/
def lexTextStep (l : LexState) : Option LexFn × LexState :=
  if l.strMode then (some .strBody, l)
  else
    let (r, l) := l.nextRune
    match r with
    | none => (none, l.emit .eofT)
    | some c =>
      if goIsSpace c || goIsEndOfLine c then (some .space, l.backup)
      else if c = '/' then (some .comment, l)
      else if c = ':' then (some .text, { l.emit .colonTk with insertComma := false })
      else if c = ',' then (some .text, { l.emit .commaTk with insertComma := false })
      else if c = '[' then (some .text, l.emit .leftSquareParen)
      else if c = ']' then (some .text, { l.emit .rightSquareParen with insertComma := true })
      else if c = '{' then (some .text, l.emit .leftCurlyParen)
      else if c = '}' then (some .text, { l.emit .rightCurlyParen with insertComma := true })
      else if c = '"' then (some .quote, l)
      else if c = '`' then (some .rawQuote, l)
      else if c = '$' then (some .variableFn, l)
      else if c = '-' || ('0' ≤ c ∧ c ≤ '9') then (some .number, l.backup)
      else if goIsAlphaNumeric c then (some .identifier, l.backup)
      else (none, l.emitError ("unrecognized character scanned: " ++ fmtRuneU (some c)))

/-- The loop of lexSpace: skip spaces, and at each newline (or carriage
return) bump `pos` directly and emit a pending automatic comma. -/
def lexSpaceLoop : Nat → LexState → LexState
  | 0, l => l
  | f + 1, l =>
    let (r, l) := l.peekRune
    match r with
    | some c =>
      if goIsEndOfLine c then lexSpaceLoop f ({ l with pos := l.pos + 1 }.emitAutomaticComma)
      else if goIsSpace c then lexSpaceLoop f l.nextRune.2
      else l
    | none => l

/-- lexSpace. -/
def lexSpaceStep (l : LexState) : Option LexFn × LexState :=
  (some .text, (lexSpaceLoop (l.input.length + 2) l).ignore)

/-- lexComment: decide between line and block comments. -/
def lexCommentStep (l : LexState) : Option LexFn × LexState :=
  let (r, l) := l.nextRune
  match r with
  | some '/' => (some .lineComment, l)
  | some '*' => (some .blockComment, l)
  | some c => (none, l.emitError ("unrecognized sequence scanned: /" ++ String.singleton c))
  | none => (none, l.emitError ("unrecognized sequence scanned: /�"))

/-- lexLineComment. -/
def lexLineCommentStep (l : LexState) : Option LexFn × LexState :=
  let l := l.emitAutomaticComma
  let rest := l.input.drop l.pos
  match rest.findIdx? (fun c => c = '\n') with
  | some i =>
    let l := { l with pos := l.pos + i }
    let l := l.emit .commentTk
    let l := { l with pos := l.pos + 1 }
    (some .text, l.ignore)
  | none =>
    let l := { l with pos := l.pos + rest.length }
    (some .text, l.emit .commentTk)

/-- Index of the first occurrence of `needle` in a character list. -/
def findSubIdx (needle : List Char) : List Char → Option Nat
  | [] => if needle = [] then some 0 else none
  | c :: rest =>
    if needle.isPrefixOf (c :: rest) then some 0 else (findSubIdx needle rest).map (· + 1)

/-- lexBlockComment. -/
def lexBlockCommentStep (l : LexState) : Option LexFn × LexState :=
  match findSubIdx ['*', '/'] (l.input.drop l.pos) with
  | none => (none, l.emitError "unclosed block comment")
  | some i =>
    let l := { l with pos := l.pos + i + 2 }
    let nline := ((l.input.drop l.start).take (l.pos - l.start)).count '\n'
    let l := if nline > 0 then l.emitAutomaticComma else l
    let l := { l with line := l.line + nline }
    (some .text, l.emit .commentTk)

/-- lexQuote: emit the quote symbol and toggle string mode. -/
def lexQuoteStep (l : LexState) : Option LexFn × LexState :=
  let l := l.emit .quoteTk
  if ¬ l.strMode then (some .strBody, { l with strMode := true })
  else (some .text, { l with strMode := false, insertComma := true })

/-- The scanning loop of lexString: scan fragment characters until a
closing quote or a '$'; escaped characters are skipped pairwise; a newline
or eof is an unterminated string.  The Bool is true when an error token was
emitted. -/
def lexStringLoop : Nat → LexState → Bool × LexState
  | 0, l => (true, l.emitError "lexer fuel exhausted")
  | f + 1, l =>
    let (r, l) := l.nextRune
    match r with
    | some '\\' =>
      let (r2, l2) := l.nextRune
      match r2 with
      | some c2 => if c2 ≠ '\n' then lexStringLoop f l2 else (true, l2.emitError "unterminated string")
      | none => (true, l2.emitError "unterminated string")
    | none => (true, l.emitError "unterminated string")
    | some '\n' => (true, l.emitError "unterminated string")
    | some '"' => (false, l.backup)
    | some '$' => (false, l.backup)
    | some _ => lexStringLoop f l

/-- lexString: must be in string mode (Go panics otherwise; unreachable).
A leading right curly brace is emitted as its own token (the end of an
interpolated variable, or a false positive the parser fixes up). -/
def lexStringStep (l : LexState) : Option LexFn × LexState :=
  if ¬ l.strMode then (none, l.emitError "lexString called with lexer not in string mode")
  else
    let (r0, l) := l.peekRune
    let l := if r0 = some '}' then (l.nextRune.2).emit .rightCurlyParen else l
    match lexStringLoop (l.input.length + 2) l with
    | (true, l) => (none, l)
    | (false, l) =>
      let l := if l.start < l.pos then l.emit .stringTk else l
      let (r, l) := l.nextRune
      match r with
      | some '"' => (some .quote, l)
      | some '$' => (some .variableFn, l)
      | r => (none, l.emitError ("unrecognized character scanned: " ++ fmtRuneU r))

/-- The scanning loop of lexRawQuote. -/
def lexRawLoop : Nat → LexState → Bool × LexState
  | 0, l => (true, l.emitError "lexer fuel exhausted")
  | f + 1, l =>
    let (r, l) := l.nextRune
    match r with
    | none => (true, l.emitError "unterminated raw string")
    | some '`' => (false, l)
    | some _ => lexRawLoop f l

/-- lexRawQuote. -/
def lexRawQuoteStep (l : LexState) : Option LexFn × LexState :=
  match lexRawLoop (l.input.length + 2) l with
  | (true, l) => (none, l)
  | (false, l) => (some .text, { l.emit .rawStringTk with insertComma := true })

/-- lexNumber: optional sign, digit run, optional fraction, optional
exponent; the following rune must not be alphanumeric. -/
def lexNumberStep (l : LexState) : Option LexFn × LexState :=
  let digits := ['0', '1', '2', '3', '4', '5', '6', '7', '8', '9']
  let l := (l.accept ['-']).2
  let l := l.acceptRun digits
  let p1 := l.accept ['.']
  let l := if p1.1 then p1.2.acceptRun digits else p1.2
  let p2 := l.accept ['e', 'E']
  let l := if p2.1 then ((p2.2.accept ['+', '-']).2).acceptRun digits else p2.2
  if (l.peekRune.1.map goIsAlphaNumeric).getD false then
    let l := l.nextRune.2
    (none, l.emitError ("bad number syntax: " ++ goQuote l.pending))
  else
    (some .text, { l.emit .numberTk with insertComma := true })

/-- The scanning loop shared by lexIdentifier and the name scan of
lexVariable: consume alphanumeric runes, back up at the first other rune,
returning it. -/
def lexIdentLoop : Nat → LexState → LexState × Option Char
  | 0, l => (l, none)
  | f + 1, l =>
    let (r, l) := l.nextRune
    match r with
    | some c => if goIsAlphaNumeric c then lexIdentLoop f l else (l.backup, some c)
    | none => (l.backup, none)

/-- lexIdentifier: scan a word, require a valid terminator, and emit a
null/bool keyword token or a generic identifier. -/
def lexIdentifierStep (l : LexState) : Option LexFn × LexState :=
  let p := lexIdentLoop (l.input.length + 2) l
  let l := p.1
  let word := l.pending
  if ¬ l.atTerminator then
    (none, l.emitError ("bad character " ++ fmtRuneU p.2 ++ " in identifier"))
  else
    let l :=
      if word = "null" then l.emit .nullTk
      else if word = "true" || word = "false" then l.emit .boolTk
      else l.emit .identifierTk
    (some .text, { l with insertComma := true })

/-- lexVariable: after a '$', expect '{', then a letter/underscore-initial
alphanumeric name and a terminator.  In string mode a lone '$' is an
ordinary fragment character and scanning returns to the string body. -/
def lexVariableStep (l : LexState) : Option LexFn × LexState :=
  let (r, l) := l.nextRune
  if r ≠ some '{' then
    if l.strMode then (some .strBody, l.backup)
    else (none, l.emitError ("bad character " ++ fmtRuneU r ++ " after '$', expected '\x7b'"))
  else
    let l := l.emit .variableStart
    if l.atTerminator then (none, l.emitError "variable name missing after '$\x7b'")
    else
      let (r, l) := l.nextRune
      match r with
      | some c =>
        if c ≠ '_' ∧ ¬ goIsLetter c then
          (none, l.emitError ("bad character " ++ fmtRuneU (some c) ++ " after '$\x7b'"))
        else
          let p := lexIdentLoop (l.input.length + 2) l
          let l := p.1
          if ¬ l.atTerminator then
            (none, l.emitError ("bad character " ++ fmtRuneU p.2))
          else (some .text, l.emit .identifierTk)
      | none => (none, l.emitError ("bad character " ++ fmtRuneU none ++ " after '$\x7b'"))

/-- One step of the lexer state machine. -/
def lexStep : LexFn → LexState → Option LexFn × LexState
  | .text, l => lexTextStep l
  | .space, l => lexSpaceStep l
  | .comment, l => lexCommentStep l
  | .lineComment, l => lexLineCommentStep l
  | .blockComment, l => lexBlockCommentStep l
  | .quote, l => lexQuoteStep l
  | .strBody, l => lexStringStep l
  | .rawQuote, l => lexRawQuoteStep l
  | .number, l => lexNumberStep l
  | .identifier, l => lexIdentifierStep l
  | .variableFn, l => lexVariableStep l

/-- lexer.run: drive the state machine to a terminal state (fuel-based; the
bound passed by `lexAll` is generous for every input since each round trip
through lexText consumes input). -/
def lexRun : Nat → LexFn → LexState → LexState
  | 0, _, l => l.emitError "lexer fuel exhausted"
  | f + 1, fn, l =>
    match lexStep fn l with
    | (none, l) => l
    | (some fn', l) => lexRun f fn' l

/-- lex: scan the whole input and return the token stream in emission
order (the channel of the Go lexer, fully drained). -/
def lexAll (input : List Char) : List Token :=
  (lexRun (8 * input.length + 32) .text { input := input }).tokens



/- ===== Parser (parse.go) ===== -/

/-- scparse.Error: a positioned parse error. -/
structure PError where
  pos : Pos
  context : String
deriving DecidableEq

/-- The zero value of the token struct: what the closed token channel
yields if the parser were ever to read past the end of the stream. -/
def zeroTok : Token := { typ := .errorT, pos := { line := 0, column := 0, byte := 0 }, val := "" }

/-- Error used when the modelled parser runs out of fuel; unreachable for
the fuel passed by `Parse`. -/
def pFuelErr : PError := { pos := { line := 0, column := 0, byte := 0 }, context := "parser fuel exhausted" }

/-- The parser state: the remaining token stream, the current token
(`parser.token`), and the one-token lookahead flag. -/
structure PState where
  toks : List Token
  token : Token := zeroTok
  hasPeeked : Bool := false

/-- parser.next. -/
def PState.next (p : PState) : Token × PState :=
  if p.hasPeeked then (p.token, { p with hasPeeked := false })
  else
    match p.toks with
    | [] => (zeroTok, { p with token := zeroTok })
    | t :: r => (t, { p with toks := r, token := t })

/-- parser.peek. -/
def PState.peek (p : PState) : Token × PState :=
  if p.hasPeeked then (p.token, p)
  else
    match p.toks with
    | [] => (zeroTok, { p with token := zeroTok, hasPeeked := true })
    | t :: r => (t, { p with toks := r, token := t, hasPeeked := true })

/-- parser.unexpected: the error raised for an unexpected token.  An error
token carries its own message (errorf("%s", tok)); any other token is
reported as "unexpected <tok> in <context>".  Every Go call site invokes
this right after consuming `tok`, so `p.token.pos = tok.pos`. -/
def unexpectedErr (tok : Token) (context : String) : PError :=
  if tok.typ = .errorT then { pos := tok.pos, context := tok.val }
  else { pos := tok.pos, context := "unexpected " ++ tok.str ++ " in " ++ context }

/-- parser.expect. -/
def expectTok (p : PState) (expected : TokenType) (context : String) :
    Except PError (Token × PState) :=
  let (tok, p) := p.next
  if tok.typ = expected then .ok (tok, p) else .error (unexpectedErr tok context)

/-- strings.TrimPrefix on character lists. -/
def trimPre (pre s : List Char) : List Char :=
  if pre.isPrefixOf s then s.drop pre.length else s

/-- strings.TrimSuffix on character lists. -/
def trimSuf (suf s : List Char) : List Char :=
  if suf.isSuffixOf s then s.take (s.length - suf.length) else s

/-- parser.parseComment: strip the // or the /* */ delimiters. -/
def parseComment (p : PState) : Comment × PState :=
  let (tok, p) := p.next
  let cs := tok.val.data
  if ['/', '/'].isPrefixOf cs then
    ({ pos := tok.pos, text := String.mk (cs.drop 2), isBlock := false }, p)
  else
    let text := String.mk (trimSuf ['*', '/'] (trimPre ['/', '*'] cs))
    ({ pos := tok.pos, text := text, isBlock := true }, p)

/-- The head-comment loop at the start of parseValue and parseMember. -/
def parseHeadComments : Nat → PState → List Comment × PState
  | 0, p => ([], p)
  | f + 1, p =>
    let (tok, p') := p.peek
    if tok.typ = .commentTk then
      let (c, p2) := parseComment p'
      let (cs, p3) := parseHeadComments f p2
      (c :: cs, p3)
    else ([], p')

/-- parser.parseInlineComments: all comments on the given line. -/
def parseInlineComments : Nat → PState → Nat → List Comment × PState
  | 0, p, _ => ([], p)
  | f + 1, p, line =>
    let (tok, p') := p.peek
    if tok.typ = .commentTk ∧ tok.pos.line = line then
      let (c, p2) := parseComment p'
      let (cs, p3) := parseInlineComments f p2 line
      (c :: cs, p3)
    else ([], p')

/-- Numeric value of one hex digit character. -/
def hexVal (c : Char) : Option Nat :=
  if '0' ≤ c ∧ c ≤ '9' then some (c.toNat - '0'.toNat)
  else if 'a' ≤ c ∧ c ≤ 'f' then some (c.toNat - 'a'.toNat + 10)
  else if 'A' ≤ c ∧ c ≤ 'F' then some (c.toNat - 'A'.toNat + 10)
  else none

/-- getu4: decode \uXXXX from the beginning of s, or -1. -/
def getu4 (s : List Char) : Int :=
  match s with
  | '\\' :: 'u' :: c1 :: c2 :: c3 :: c4 :: _ =>
    match hexVal c1, hexVal c2, hexVal c3, hexVal c4 with
    | some a, some b, some c, some d => (((a * 16 + b) * 16 + c) * 16 + d : Nat)
    | _, _, _, _ => -1
  | _ => -1

/-- utf16.IsSurrogate. -/
def utf16IsSurrogate (r : Int) : Bool := 0xD800 ≤ r ∧ r < 0xE000

/-- utf16.DecodeRune: combine a surrogate pair, or U+FFFD. -/
def utf16DecodeRune (r1 r2 : Int) : Int :=
  if 0xD800 ≤ r1 ∧ r1 < 0xDC00 ∧ 0xDC00 ≤ r2 ∧ r2 < 0xE000 then
    (r1 - 0xD800) * 0x400 + (r2 - 0xDC00) + 0x10000
  else 0xFFFD

/-- The transformation loop of parser.unescapeString.  The Go code first
scans for unusual characters and returns the input unchanged when there are
none; that fast path is semantically the identity and is folded into this
single loop.  Errors are positioned at `pos`, the position of the current
token (p.token.pos) at every Go call site.  Malformed UTF-8, which Go
coerces to U+FFFD, cannot occur in the `List Char` model. -/
def unescapeLoop : Nat → Pos → List Char → Except PError (List Char)
  | 0, pos, _ => .error { pos := pos, context := "parser fuel exhausted" }
  | f + 1, pos, s =>
    match s with
    | [] => .ok []
    | '\\' :: rest =>
      match rest with
      | [] => .error { pos := pos, context := "unterminated escape character" }
      | e :: rest2 =>
        if e = '"' ∨ e = '\\' ∨ e = '/' ∨ e = '\'' ∨ e = '$' then
          (unescapeLoop f pos rest2).map (e :: ·)
        else if e = 'b' then (unescapeLoop f pos rest2).map ('\x08' :: ·)
        else if e = 'f' then (unescapeLoop f pos rest2).map ('\x0c' :: ·)
        else if e = 'n' then (unescapeLoop f pos rest2).map ('\n' :: ·)
        else if e = 'r' then (unescapeLoop f pos rest2).map ('\r' :: ·)
        else if e = 't' then (unescapeLoop f pos rest2).map ('\t' :: ·)
        else if e = 'u' then
          let s0 := '\\' :: e :: rest2
          let rr := getu4 s0
          if rr < 0 then .error { pos := pos, context := "invalid unicode escape sequence" }
          else
            let after := s0.drop 6
            if utf16IsSurrogate rr then
              let rr1 := getu4 after
              let dec := utf16DecodeRune rr rr1
              if dec ≠ 0xFFFD then
                (unescapeLoop f pos (after.drop 6)).map (Char.ofNat dec.toNat :: ·)
              else (unescapeLoop f pos after).map (Char.ofNat 0xFFFD :: ·)
            else (unescapeLoop f pos after).map (Char.ofNat rr.toNat :: ·)
        else
          let ctx := "invalid escape character '\\" ++ String.singleton e ++ "' in string"
          .error { pos := pos, context := ctx }
    | c :: rest =>
      if c = '"' ∨ c.toNat < 32 then
        .error { pos := pos, context := "invalid character in string: " ++ String.singleton c }
      else (unescapeLoop f pos rest).map (c :: ·)

/-- parser.unescapeString: convert a quoted SC string literal (without the
quotes) into the actual string, replacing escapes. -/
def unescapeString (pos : Pos) (s : String) : Except PError String :=
  (unescapeLoop (s.data.length + 2) pos s.data).map String.mk

/-- parser.parseVariable: `${` identifier `}`. -/
def parseVariable (p : PState) : Except PError (Node × PState) := do
  let (startTok, p) := p.next
  let (idTok, p) ← expectTok p .identifierTk "variable"
  let (_, p) ← expectTok p .rightCurlyParen "variable, expected '\x7d'"
  .ok (Node.varN startTok.pos {} idTok.pos {} idTok.val, p)

/-- parser.parseRawString: strip the backtick quotes. -/
def parseRawString (p : PState) : Node × PState :=
  let (tok, p) := p.next
  (Node.rawStringN tok.pos {} (String.mk ((tok.val.data.drop 1).dropLast)), p)

/-- The token loop of parser.parseStringKey. -/
def parseStringKeyLoop : Nat → Pos → List Char → PState → Except PError (Node × PState)
  | 0, _, _, _ => .error pFuelErr
  | f + 1, startPos, acc, p =>
    let (tok, p) := p.next
    match tok.typ with
    | .quoteTk => .ok (Node.stringN startPos {} (String.mk acc), p)
    | .stringTk | .rightCurlyParen => do
      let u ← unescapeString tok.pos tok.val
      parseStringKeyLoop f startPos (acc ++ u.data) p
    | .variableStart =>
      .error (unexpectedErr tok "string key, dictionary keys cannot contain variables")
    | _ => .error (unexpectedErr tok "string key")

/-- parser.parseStringKey: a string dictionary key; interpolation is not
allowed. -/
def parseStringKey (fuel : Nat) (p : PState) : Except PError (Node × PState) :=
  let (startTok, p) := p.next
  parseStringKeyLoop fuel startTok.pos [] p

/-- Flush the pending fragment StringNode of parseString into the
component list. -/
def flushSN (components : List Node) (snPos : Option Pos) (sb : List Char) : List Node :=
  match snPos with
  | none => components
  | some pos => components ++ [Node.stringN pos {} (String.mk sb)]

/-- The token loop of parser.parseString: sequence of fragments (adjacent
fragments and false-positive right curly braces are merged into one
StringNode) and interpolated variables, up to the closing quote. -/
def parseStringLoop : Nat → List Node → Option Pos → List Char → PState →
    Except PError (List Node × PState)
  | 0, _, _, _, _ => .error pFuelErr
  | f + 1, components, snPos, sb, p =>
    let (tok, p') := p.peek
    match tok.typ with
    | .quoteTk => .ok (flushSN components snPos sb, p'.next.2)
    | .stringTk | .rightCurlyParen => do
      let (tok2, p2) := p'.next
      let snPos := if snPos = none then some tok2.pos else snPos
      let u ← unescapeString tok2.pos tok2.val
      parseStringLoop f components snPos (sb ++ u.data) p2
    | .variableStart => do
      let components := flushSN components snPos sb
      let (v, p2) ← parseVariable p'
      parseStringLoop f (components ++ [v]) none [] p2
    | _ =>
      let (t, _) := p'.next
      .error (unexpectedErr t "string value")

/-- parser.parseString: a double-quoted string value that may contain
interpolated variables. -/
def parseStringF (fuel : Nat) (p : PState) : Except PError (Node × PState) := do
  let (startTok, p) := p.next
  let (components, p) ← parseStringLoop fuel [] none [] p
  .ok (Node.interpN startTok.pos {} components, p)

/-- End of parseValue: append parsed head comments and same-line inline
comments to the node's comment group. -/
def attachValueComments (n : Node) (headComments : List Comment) (p : PState) :
    Except PError (Node × PState) :=
  let (inl, p) := parseInlineComments (p.toks.length + 2) p n.position.line
  .ok (n.withCG (fun cg => { cg with head := cg.head ++ headComments, inline := cg.inline ++ inl }), p)

/-- Append inline comments found after a separating comma to a dictionary
member's value node. -/
def memberWithValueInline (m : Node) (inl : List Comment) : Node :=
  match m with
  | .memberN pos cg key value =>
    .memberN pos cg key (value.withCG (fun c => { c with inline := c.inline ++ inl }))
  | n => n

/-- Set the foot comments of the last node of a list (the Go code mutates
the last member/element in place). -/
def setLastFoot (ns : List Node) (foot : List Comment) : List Node :=
  match ns.getLast? with
  | none => ns
  | some last => ns.dropLast ++ [last.withCG (fun cg => { cg with foot := foot })]

mutual

/-- parser.parseValue: head comments, then dispatch on the next token;
inline comments on the node's starting line are attached afterwards. -/
def parseValue : Nat → PState → Except PError (Node × PState)
  | 0, _ => .error pFuelErr
  | f + 1, p => do
    let (headComments, p) := parseHeadComments (p.toks.length + 2) p
    let (tok, p) := p.peek
    match tok.typ with
    | .nullTk =>
      let (t, p) := p.next
      attachValueComments (Node.nullN t.pos {}) headComments p
    | .boolTk =>
      let (t, p) := p.next
      attachValueComments (Node.boolN t.pos {} (t.val = "true")) headComments p
    | .numberTk =>
      let (t, p) := p.next
      match newNumber t.val with
      | .error e => .error { pos := t.pos, context := e }
      | .ok nd => attachValueComments (Node.numberN t.pos {} nd) headComments p
    | .quoteTk => do
      let (n, p) ← parseStringF (p.toks.length + 2) p
      attachValueComments n headComments p
    | .rawStringTk =>
      let (n, p) := parseRawString p
      attachValueComments n headComments p
    | .variableStart => do
      let (n, p) ← parseVariable p
      attachValueComments n headComments p
    | .leftCurlyParen => do
      let (n, p) ← parseDictionary f p
      attachValueComments n headComments p
    | .leftSquareParen => do
      let (n, p) ← parseList f p
      attachValueComments n headComments p
    | .rightSquareParen =>
      let (t, p) := p.next
      attachValueComments (Node.endN t.pos {}) headComments p
    | _ =>
      let (t, _) := p.next
      .error (unexpectedErr t "value")

/-- parser.parseMember: an end-of-dictionary marker, or key, colon,
value. -/
def parseMember : Nat → PState → Except PError (Node × PState)
  | 0, _ => .error pFuelErr
  | f + 1, p => do
    let (headComments, p) := parseHeadComments (p.toks.length + 2) p
    let (tok, p) := p.peek
    if tok.typ = .rightCurlyParen then
      let (t, p) := p.next
      let (inl, p) := parseInlineComments (p.toks.length + 2) p t.pos.line
      .ok (Node.endN t.pos { head := headComments, inline := inl }, p)
    else do
      let kr : Except PError (Node × PState) :=
        match tok.typ with
        | .identifierTk =>
          let (t, p) := p.next
          .ok (Node.identN t.pos {} t.val, p)
        | .quoteTk => parseStringKey (p.toks.length + 2) p
        | .rawStringTk => .ok (parseRawString p)
        | _ =>
          let (t, _) := p.next
          .error (unexpectedErr t "dictionary key, expected identifier or string")
      let (key, p) ← kr
      let (inl, p) := parseInlineComments (p.toks.length + 2) p key.position.line
      let key := key.withCG (fun cg => { cg with head := headComments, inline := inl })
      let (_, p) ← expectTok p .colonTk "dictionary element, expected ':'"
      let (val, p) ← parseValue f p
      .ok (Node.memberN key.position {} key val, p)

/-- The member loop of parser.parseDictionary. -/
def parseDictLoop : Nat → Token → List Node → PState → Except PError (Node × PState)
  | 0, _, _, _ => .error pFuelErr
  | f + 1, startTok, members, p => do
    let (mem, p) ← parseMember f p
    if mem.typ = .endT then
      let endCg := mem.comments
      if members.isEmpty then
        .ok (Node.dictN startTok.pos { inline := endCg.inline, inner := endCg.head } members, p)
      else
        .ok (Node.dictN startTok.pos { inline := endCg.inline }
          (setLastFoot members endCg.head), p)
    else
      let (tok, p') := p.peek
      if tok.typ = .rightCurlyParen then
        parseDictLoop f startTok (members ++ [mem]) p'
      else do
        let (ctok, p2) ← expectTok p' .commaTk "dictionary, expected ','"
        let (inl, p3) := parseInlineComments (p2.toks.length + 2) p2 ctok.pos.line
        parseDictLoop f startTok (members ++ [memberWithValueInline mem inl]) p3

/-- parser.parseDictionary. -/
def parseDictionary : Nat → PState → Except PError (Node × PState)
  | 0, _ => .error pFuelErr
  | f + 1, p =>
    let (startTok, p) := p.next
    parseDictLoop f startTok [] p

/-- The element loop of parser.parseList. -/
def parseListLoop : Nat → Token → List Node → PState → Except PError (Node × PState)
  | 0, _, _, _ => .error pFuelErr
  | f + 1, startTok, elements, p => do
    let (el, p) ← parseValue f p
    if el.typ = .endT then
      let endCg := el.comments
      if elements.isEmpty then
        .ok (Node.listN startTok.pos { inline := endCg.inline, inner := endCg.head } elements, p)
      else
        .ok (Node.listN startTok.pos { inline := endCg.inline }
          (setLastFoot elements endCg.head), p)
    else
      let (tok, p') := p.peek
      if tok.typ = .rightSquareParen then
        parseListLoop f startTok (elements ++ [el]) p'
      else do
        let (ctok, p2) ← expectTok p' .commaTk "list, expected ','"
        let (inl, p3) := parseInlineComments (p2.toks.length + 2) p2 ctok.pos.line
        parseListLoop f startTok
          (elements ++ [el.withCG (fun c => { c with inline := c.inline ++ inl })]) p3

/-- parser.parseList. -/
def parseList : Nat → PState → Except PError (Node × PState)
  | 0, _ => .error pFuelErr
  | f + 1, p =>
    let (startTok, p) := p.next
    parseListLoop f startTok [] p

end

/-- The trailing-token loop of parser.parse: after the top-level
dictionary only comments, at most one comma, and EOF are allowed.  A
comment on the same line as the trailing comma becomes an inline comment
of the document, any other comment a foot comment. -/
def parseDocLoop : Nat → Node → Option Token → PState → Except PError (Node × PState)
  | 0, _, _, _ => .error pFuelErr
  | f + 1, n, commaTok, p =>
    let (tok, p') := p.peek
    match tok.typ with
    | .eofT => .ok (n, p'.next.2)
    | .commentTk =>
      let isInline : Bool := match commaTok with
        | some ct => ct.pos.line == tok.pos.line
        | none => false
      let (c, p2) := parseComment p'
      if isInline then
        parseDocLoop f (n.withCG (fun cg => { cg with inline := cg.inline ++ [c] })) commaTok p2
      else
        parseDocLoop f (n.withCG (fun cg => { cg with foot := cg.foot ++ [c] })) commaTok p2
    | .commaTk =>
      match commaTok with
      | none =>
        let (ct, p2) := p'.next
        parseDocLoop f n (some ct) p2
      | some _ =>
        let (t, _) := p'.next
        .error (unexpectedErr t "end of document")
    | _ =>
      let (t, _) := p'.next
      .error (unexpectedErr t "end of document")

/-- parser.parse driven from a token stream: parse the document value,
require it to be a dictionary (on violation the error is positioned at
the start of the offending node, overriding the lookahead token's
position exactly as parser.parse does), then consume the permitted
trailing tokens. -/
def parseTokens (toks : List Token) : Except PError Node := do
  let p : PState := { toks := toks }
  let (n, p) ← parseValue (2 * toks.length + 16) p
  if n.typ ≠ .dictionaryT then
    .error { pos := n.position, context := "top level value in SC document must be a dictionary" }
  else do
    let (n, _) ← parseDocLoop (p.toks.length + 4) n none p
    .ok n

/-- scparse.Parse: lex the input and parse the document. -/
def Parse (input : String) : Except PError Node := parseTokens (lexAll input.data)

/-- Shorthand for building a token at a position. -/
def mkTok (t : TokenType) (l c b : Nat) (v : String) : Token :=
  { typ := t, pos := { line := l, column := c, byte := b }, val := v }



/- ===== Printer (print.go) ===== -/

/-- unicode.IsSpace on the ASCII whitespace characters (strings.TrimSpace). -/
def goIsSpaceRune (c : Char) : Bool :=
  c = ' ' || c = '\t' || c = '\n' || c = '\x0b' || c = '\x0c' || c = '\r'

/-- strings.TrimSpace. -/
def goTrimSpace (s : String) : String :=
  String.mk (((s.data.dropWhile goIsSpaceRune).reverse.dropWhile goIsSpaceRune).reverse)

/-- Decimal digits of a Nat, most significant first (fuel 256 covers any
number of digits arising from uint64/int64 values by a huge margin). -/
def natDecAux : Nat → Nat → List Char
  | 0, _ => []
  | f + 1, n =>
    if n = 0 then [] else natDecAux f (n / 10) ++ [Char.ofNat ('0'.toNat + n % 10)]

/-- Go fmt %d of an unsigned integer. -/
def goFmtNat (n : Nat) : String :=
  if n = 0 then "0" else String.mk (natDecAux 256 n)

/-- Go fmt %d of a signed integer. -/
def goFmtInt (i : Int) : String :=
  if i < 0 then "-" ++ goFmtNat (-i).toNat else goFmtNat i.toNat

/-- Go fmt %f of a float64: fixed-point with six decimals (rounding to
nearest).  Only reachable for programmatically built NumberNodes with no
raw text and no integer representation; never exercised by the theorems. -/
def goFmtF6 (v : Q) : String :=
  let scaled := Q.roundHalfEven ⟨v.abs.num * 1000000, v.den⟩
  let ip := (scaled / 1000000).toNat
  let fp := (scaled % 1000000).toNat
  let fracs := natDecAux 256 fp
  let frac := String.mk (List.replicate (6 - fracs.length) '0' ++ fracs)
  (if v.num < 0 then "-" else "") ++ goFmtNat ip ++ "." ++ frac

/-- The printer state (struct printer): the output buffer, the queued
end-of-line comments, and the indentation margin. -/
structure PrState where
  out : String := ""
  comments : List Comment := []
  margin : Nat := 0

def PrState.write (p : PrState) (s : String) : PrState := { p with out := p.out ++ s }

/-- printer.indent: two spaces per margin level. -/
def PrState.indent (p : PrState) : PrState :=
  p.write (String.mk (List.flatten (List.replicate p.margin [' ', ' '])))

/-- printer.printComment: block comments verbatim in their delimiters;
line comments as // + text with surrounding whitespace trimmed (only
trailing space can be present since the text follows `//`). -/
def printComment (p : PrState) (c : Comment) : PrState :=
  if c.isBlock then p.write ("/*" ++ c.text ++ "*/")
  else p.write (goTrimSpace ("//" ++ c.text))

/-- printer.newline: flush queued end-of-line comments, then newline and
indent. -/
def PrState.newline (p : PrState) : PrState :=
  let p :=
    if p.comments.isEmpty then p
    else
      let p := p.comments.foldl (fun p c => printComment (p.write " ") c) p
      { p with comments := [] }
  (p.write "\n").indent

/-- printer.printComments: each comment on its own line. -/
def printCommentList (p : PrState) (cmts : List Comment) : PrState :=
  cmts.foldl (fun p c => (printComment p c).newline) p

/-- printer.printNumber: the raw literal when available, otherwise a
canonical rendering of the value. -/
def printNumber (p : PrState) (n : NumberData) : PrState :=
  if n.raw ≠ "" then p.write n.raw
  else if n.isUint then p.write (goFmtNat n.uint64)
  else if n.isInt then p.write (goFmtInt n.int64)
  else if n.isFloat then p.write (goFmtF6 n.float64)
  else p.write "0"

/-- The character loop of printer.escapeString: re-escape backslash, quote,
newline, carriage return and tab; escape '$' only when immediately
followed by '{' (and the '{' is processed on its own in the next
iteration).  Well-formed non-ASCII runes pass through unchanged (the
literal-U+FFFD escape applies only to malformed UTF-8, which the
`List Char` model cannot represent). -/
def escLoop : List Char → List Char
  | [] => []
  | '\\' :: r => '\\' :: '\\' :: escLoop r
  | '"' :: r => '\\' :: '"' :: escLoop r
  | '\n' :: r => '\\' :: 'n' :: escLoop r
  | '\r' :: r => '\\' :: 'r' :: escLoop r
  | '\t' :: r => '\\' :: 't' :: escLoop r
  | '$' :: '{' :: r => '\\' :: '$' :: escLoop ('{' :: r)
  | c :: r => c :: escLoop r

/-- printer.escapeString. -/
def escapeStringGo (s : String) : String := String.mk (escLoop s.data)

mutual

/-- printer.printValue: head comments, the node itself, then queue the
node's inline comments.  Identifier, member, plain-string and end nodes
make the Go printer panic ("unexpected node type"); they are unreachable
from Format and print nothing in the model. -/
def printValue (p : PrState) (n : Node) : PrState :=
  let p := printCommentList p n.comments.head
  let p :=
    match n with
    | .nullN _ _ => p.write "null"
    | .boolN _ _ b => p.write (if b then "true" else "false")
    | .rawStringN _ _ v => p.write ("`" ++ v ++ "`")
    | .varN _ _ _ _ name => p.write ("$\x7b" ++ name ++ "\x7d")
    | .numberN _ _ nd => printNumber p nd
    | .interpN _ _ comps => printInterp p comps
    | .listN _ cg els =>
      let p := p.write "["
      if els.isEmpty then
        let p :=
          if cg.inner.isEmpty then p
          else
            let p := { p with margin := p.margin + 1 }
            let p := cg.inner.foldl (fun p c => printComment p.newline c) p
            ({ p with margin := p.margin - 1 }).newline
        p.write "]"
      else
        let p := { p with margin := p.margin + 1 }
        let p := printCommentList p.newline cg.inner
        let p := printElems p els
        (({ p with margin := p.margin - 1 }).newline).write "]"
    | .dictN _ cg ms =>
      let p := p.write "\x7b"
      if ms.isEmpty then
        let p :=
          if cg.inner.isEmpty then p
          else
            let p := { p with margin := p.margin + 1 }
            let p := cg.inner.foldl (fun p c => printComment p.newline c) p
            ({ p with margin := p.margin - 1 }).newline
        p.write "\x7d"
      else
        let p := { p with margin := p.margin + 1 }
        let p := printCommentList p.newline cg.inner
        let p := printMembers p ms
        (({ p with margin := p.margin - 1 }).newline).write "\x7d"
    | _ => p
  { p with comments := p.comments ++ n.comments.inline }

/-- printer.printInterpolatedString. -/
def printInterp (p : PrState) (comps : List Node) : PrState :=
  let p := p.write "\""
  let p := comps.foldl (fun p c =>
    match c with
    | .stringN _ _ v => p.write (escapeStringGo v)
    | .varN _ _ _ _ name => p.write ("$\x7b" ++ name ++ "\x7d")
    | _ => p) p
  p.write "\""

/-- The element loop of printer.printList: each element followed by its
foot comments, with a newline between consecutive elements. -/
def printElems (p : PrState) (els : List Node) : PrState :=
  match els with
  | [] => p
  | [e] =>
    let p := printValue p e
    e.comments.foot.foldl (fun p c => printComment p.newline c) p
  | e :: rest =>
    let p := printValue p e
    let p := e.comments.foot.foldl (fun p c => printComment p.newline c) p
    printElems p.newline rest

/-- The member loop of printer.printDictionary. -/
def printMembers (p : PrState) (ms : List Node) : PrState :=
  match ms with
  | [] => p
  | [m] =>
    let p := printMemberGo p m
    m.comments.foot.foldl (fun p c => printComment p.newline c) p
  | m :: rest =>
    let p := printMemberGo p m
    let p := m.comments.foot.foldl (fun p c => printComment p.newline c) p
    printMembers p.newline rest

/-- printer.printMember: the key (bare identifiers and raw strings as is,
plain string keys quoted and escaped), then either `key: value` on one
line, or `key:` with the value indented on its own line when comments are
pending or the key carries foot comments or the value head comments. -/
def printMemberGo (p : PrState) (m : Node) : PrState :=
  match m with
  | .memberN _ cg key value =>
    let p := printCommentList p cg.head
    let p := printCommentList p key.comments.head
    let p :=
      match key with
      | .identN _ _ name => p.write name
      | .rawStringN _ _ v => p.write ("`" ++ v ++ "`")
      | .stringN _ _ v => ((p.write "\"").write (escapeStringGo v)).write "\""
      | _ => p
    let p := { p with comments := p.comments ++ key.comments.inline }
    let onOwnLine : Bool :=
      ¬ p.comments.isEmpty || ¬ key.comments.foot.isEmpty || ¬ value.comments.head.isEmpty
    let p :=
      if onOwnLine then ({ p.write ":" with margin := p.margin + 1 }).newline
      else p.write ": "
    let p := printCommentList p key.comments.foot
    let p := printValue p value
    if onOwnLine then { p with margin := p.margin - 1 } else p
  | _ => p

end

/-- scparse.Format: print the document followed by a newline and its
trailing foot comments. -/
def Format (n : Node) : String :=
  let p : PrState := {}
  let p := printValue p n
  let p := p.newline
  let p := printCommentList p n.comments.foot
  p.out

/- ===== Position stripping (structural equality modulo positions) ===== -/

/-- The zero position, substituted for every position field. -/
def zeroPos : Pos := { line := 0, column := 0, byte := 0 }

def stripComment (c : Comment) : Comment := { c with pos := zeroPos }

def stripCG (cg : CommentGroup) : CommentGroup :=
  { head := cg.head.map stripComment, inline := cg.inline.map stripComment,
    foot := cg.foot.map stripComment, inner := cg.inner.map stripComment }

mutual

/-- Erase every position field in a node (including the positions of
attached comments and of the identifier inside a variable node), leaving
the structural content. -/
def stripPos : Node → Node
  | .nullN _ cg => .nullN zeroPos (stripCG cg)
  | .boolN _ cg b => .boolN zeroPos (stripCG cg) b
  | .numberN _ cg nd => .numberN zeroPos (stripCG cg) nd
  | .stringN _ cg v => .stringN zeroPos (stripCG cg) v
  | .interpN _ cg cs => .interpN zeroPos (stripCG cg) (stripPosList cs)
  | .rawStringN _ cg v => .rawStringN zeroPos (stripCG cg) v
  | .identN _ cg n => .identN zeroPos (stripCG cg) n
  | .varN _ cg _ idCg n => .varN zeroPos (stripCG cg) zeroPos (stripCG idCg) n
  | .listN _ cg es => .listN zeroPos (stripCG cg) (stripPosList es)
  | .memberN _ cg k v => .memberN zeroPos (stripCG cg) (stripPos k) (stripPos v)
  | .dictN _ cg ms => .dictN zeroPos (stripCG cg) (stripPosList ms)
  | .endN _ cg => .endN zeroPos (stripCG cg)

def stripPosList : List Node → List Node
  | [] => []
  | n :: rest => stripPos n :: stripPosList rest

end



/- ===== Value decoding (decode.go) ===== -/

/-- The interface destination types decode.go distinguishes: the
scparse.Node and scparse.ValueNode interfaces get the node reference
stored; the empty interface is the ordinary dynamic destination.  Other
(method-bearing) interface types are outside the modelled universe. -/
inductive IfaceT where
  | nodeIface
  | valueNodeIface
  | emptyIface
deriving DecidableEq

/-- The reflect.Kind of a destination after pointer indirection, together
with the type-identity checks decode.go performs (struct types are
identified by the struct name checked against the scparse node structs). -/
inductive RKind where
  | iface (t : IfaceT)
  | ptrK
  | mapK
  | sliceK
  | structK (sname : String)
  | intK
  | stringK
  | boolK
  | floatK
deriving DecidableEq

/-- Model of Go values held in destinations and in variable maps. -/
inductive GoVal where
  | intV (i : Int)
  | stringV (s : String)
  | boolV (b : Bool)
  | floatV (q : Q)
  | nilV
  | nodeRef (n : Node)
  | nodeStruct (n : Node)
  | structV (sname : String)

/-- The zero Go value of each destination kind (struct values are opaque,
`structV` stands for the zero struct). -/
def RKind.zero : RKind → GoVal
  | .iface _ => .nilV
  | .ptrK => .nilV
  | .mapK => .nilV
  | .sliceK => .nilV
  | .structK s => .structV s
  | .intK => .intV 0
  | .stringK => .stringV ""
  | .boolK => .boolV false
  | .floatK => .floatV ⟨0, 1⟩

/-- A decoding destination: the (indirected) value slot with its kind and
current contents, and whether the type implements the sc.Unmarshaler or
encoding.TextUnmarshaler hooks (which `indirect` in decode.go reports). -/
structure Dest where
  hasUnmarshaler : Bool := false
  hasTextUnmarshaler : Bool := false
  kind : RKind
  value : GoVal

/-- The recoverable errors recorded by the decoder that the theorems
examine: sc.UnmarshalTypeError carrying the node type, destination type
and node position, and sc.UnmarshalUnknownVariableError carrying the
variable name and position. -/
inductive DecodeError where
  | typeError (nodeType : NodeType) (destKind : RKind) (pos : Pos)
  | unknownVariable (name : String) (pos : Pos)

/-- The outcome of decoding one node into one destination: either the
type's UnmarshalSC hook was invoked with the node (taking over entirely),
or decoding finished with the destination's new contents and the list of
recorded errors. -/
inductive DecodeOutcome where
  | hookCalled (n : Node)
  | done (value : GoVal) (errs : List DecodeError)

/-- decoder.decodeNull: a destination with an UnmarshalSC hook gets the
hook; a TextUnmarshaler destination records a type error; a Node/ValueNode
interface destination stores the node reference; pointer, map, slice and
other interface destinations are set to their zero value; a NullNode
struct destination stores the node struct; everything else is left
untouched ("otherwise ignore null, the zero value will be used"). -/
def decodeNull (n : Node) (d : Dest) : DecodeOutcome :=
  if d.hasUnmarshaler then .hookCalled n
  else if d.hasTextUnmarshaler then .done d.value [.typeError n.typ d.kind n.position]
  else
    match d.kind with
    | .iface t =>
      if t = .nodeIface ∨ t = .valueNodeIface then .done (.nodeRef n) []
      else .done .nilV []
    | .ptrK => .done .nilV []
    | .mapK => .done .nilV []
    | .sliceK => .done .nilV []
    | .structK s =>
      if s = "NullNode" then .done (.nodeStruct n) []
      else .done d.value []
    | _ => .done d.value []

/-- The name of a variable node. -/
def Node.varName : Node → String
  | .varN _ _ _ _ name => name
  | _ => ""

/-- sc.Variables: an opaque external string-keyed lookup table.  `none`
models the zero Variables value, whose wrapped reflect.Value is invalid. -/
structure Variables where
  v : Option (List (String × GoVal)) := none

/-- Variables.lookup: `none` both for the zero Variables and for a missing
key (Go returns an invalid reflect.Value in both cases). -/
def Variables.lookupName (vars : Variables) (name : String) : Option GoVal :=
  match vars.v with
  | none => none
  | some m => m.lookup name

/-- Variables.Lookup: the value and whether it was found. -/
def Variables.Lookup (vars : Variables) (n : Node) : Option GoVal × Bool :=
  match vars.lookupName n.varName with
  | none => (none, false)
  | some v => (some v, true)

/-- reflect AssignableTo between a value's dynamic type and a destination
kind, on the modelled universe: same scalar kind, same struct type, and
anything into the empty interface. -/
def assignableTo (v : GoVal) (k : RKind) : Bool :=
  match v, k with
  | .intV _, .intK => true
  | .stringV _, .stringK => true
  | .boolV _, .boolK => true
  | .floatV _, .floatK => true
  | .structV s, .structK s' => s = s'
  | _, .iface .emptyIface => true
  | _, _ => false

/-- Go string(rune) conversion: invalid code points become U+FFFD. -/
def goStringOfRune (i : Int) : String :=
  if 0 ≤ i ∧ i ≤ 0x10FFFF ∧ (i < 0xD800 ∨ 0xE000 ≤ i) then String.singleton (Char.ofNat i.toNat)
  else String.singleton (Char.ofNat 0xFFFD)

/-- reflect ConvertibleTo/Convert on the modelled universe: numeric
conversions and the integer-to-string rune conversion. -/
def convertVal (v : GoVal) (k : RKind) : Option GoVal :=
  match v, k with
  | .intV i, .floatK => some (.floatV (float64OfInt i))
  | .intV i, .stringK => some (.stringV (goStringOfRune i))
  | .floatV q, .intK => some (.intV (int64OfFloat q))
  | _, _ => none

/-- decoder.decodeVariable: hook checks first; Node/ValueNode interface
destinations store the node reference and a VariableNode struct
destination the node struct, before any lookup; then the variable is
looked up, a missing value leaves the destination untouched (recording an
unknown-variable error only in strict mode), and a found value is
assigned, converted when convertible, or recorded as a type error. -/
def decodeVariable (n : Node) (vars : Variables) (strict : Bool) (d : Dest) : DecodeOutcome :=
  if d.hasUnmarshaler then .hookCalled n
  else if d.hasTextUnmarshaler then .done d.value [.typeError n.typ d.kind n.position]
  else if d.kind = .iface .nodeIface ∨ d.kind = .iface .valueNodeIface then .done (.nodeRef n) []
  else if d.kind = .structK "VariableNode" then .done (.nodeStruct n) []
  else
    match vars.lookupName n.varName with
    | none =>
      if strict then .done d.value [.unknownVariable n.varName n.position]
      else .done d.value []
    | some val =>
      if assignableTo val d.kind then .done val []
      else
        match convertVal val d.kind with
        | some v' => .done v' []
        | none => .done d.value [.typeError n.typ d.kind n.position]

/- ===== Encoding (encode.go): map encoding ===== -/

/-- newDoubleString: an InterpolatedStringNode with a single fragment. -/
def newDoubleString (s : String) : Node :=
  Node.interpN zeroPos {} [Node.stringN zeroPos {} s]

/-- The scalar branches of encoder.encodeValue on the modelled value
universe (bool, ints, floats, strings, nil references, and node values,
which encodeNode passes through).  Opaque struct values are outside the
modelled universe and produce an error. -/
def encodeGoVal (v : GoVal) : Except String Node :=
  match v with
  | .boolV b => .ok (Node.boolN zeroPos {} b)
  | .intV i => .ok (Node.numberN zeroPos {} { isInt := true, int64 := i })
  | .floatV q => .ok (Node.numberN zeroPos {} { isFloat := true, float64 := q })
  | .stringV s => .ok (newDoubleString s)
  | .nilV => .ok (Node.nullN zeroPos {})
  | .nodeRef n => .ok n
  | .nodeStruct n => .ok n
  | .structV s => .error ("unsupported value in modelled universe: " ++ s)

/-- encoder.encodeKey: a key whose first rune is a letter or underscore
and whose remaining runes are letters, digits or underscores prints as a
bare identifier, any other key as a quoted string. -/
def keyNeedsQuote : List Char → Bool
  | [] => false
  | c :: rest =>
    (¬ (c = '_' ∨ goIsLetter c)) ∨ rest.any (fun r => ¬ (r = '_' ∨ goIsLetter r ∨ goIsDigit r))

def encodeKey (s : String) : Node :=
  if keyNeedsQuote s.data then Node.stringN zeroPos {} s else Node.identN zeroPos {} s

/-- Build the member list of an encoded map in the given (sorted) entry
order; an encoding error of an entry value aborts. -/
def mapMembers : List (String × GoVal) → Except String (List Node)
  | [] => .ok []
  | (s, v) :: rest => do
    let vn ← encodeGoVal v
    let ms ← mapMembers rest
    .ok (Node.memberN zeroPos {} (encodeKey s) vn :: ms)

/-- encoder.encodeMap restricted to maps whose key type has string kind,
for which resolveMapKey returns the key itself and never fails.  A nil map
encodes as null.  The entry list stands for the map contents in MapKeys
iteration order; sort.Slice with the `mapKeys[i].s < mapKeys[j].s`
comparison is modelled by insertion sort on the keys (map keys are
distinct, so every comparison sort yields this unique order).  Go compares
strings byte-wise; byte-wise order of UTF-8 encodings equals code-point
order, which is the lexicographic order on the rune list `s.data`. -/
def encodeMap (entries? : Option (List (String × GoVal))) : Except String Node :=
  match entries? with
  | none => .ok (Node.nullN zeroPos {})
  | some entries =>
    let sorted := List.insertionSort (fun a b => a.1.data ≤ b.1.data) entries
    (mapMembers sorted).map (fun ms => Node.dictN zeroPos {} ms)

/-- The key string of an encoded dictionary member. -/
def memberKeyStr : Node → String
  | .memberN _ _ k _ =>
    match k with
    | .identN _ _ n => n
    | .stringN _ _ v => v
    | .rawStringN _ _ v => v
    | _ => ""
  | _ => ""




/- ===== Theorems ===== -/

/-- The token stream of the document `\x7ba:"\b"\x7d`. -/
def c1DToks : List Token :=
  [mkTok .leftCurlyParen 1 1 0 "\x7b",
  mkTok .identifierTk 1 2 1 "a",
  mkTok .colonTk 1 3 2 ":",
  mkTok .quoteTk 1 4 3 "\"",
  mkTok .stringTk 1 5 4 "\\b",
  mkTok .quoteTk 1 7 6 "\"",
  mkTok .rightCurlyParen 1 8 7 "\x7d",
  mkTok .eofT 1 9 8 ""]

/-- The AST of the document `\x7ba:"\b"\x7d`. -/
def c1DNode : Node :=
  Node.dictN (Pos.mk 1 1 0) {} [Node.memberN (Pos.mk 1 2 1) {} (Node.identN (Pos.mk 1 2 1) {} "a")
    (Node.interpN (Pos.mk 1 4 3) {} [Node.stringN (Pos.mk 1 5 4) {} "\x08"])]

/-- The token stream of the formatted output, whose string fragment token
carries the raw control character. -/
def c1SToks : List Token :=
  [mkTok .leftCurlyParen 1 1 0 "\x7b",
  mkTok .identifierTk 2 3 4 "a",
  mkTok .colonTk 2 4 5 ":",
  mkTok .quoteTk 2 6 7 "\"",
  mkTok .stringTk 2 7 8 "\x08",
  mkTok .quoteTk 2 8 9 "\"",
  mkTok .commaTk 2 9 10 "automatic ,",
  mkTok .rightCurlyParen 3 1 11 "\x7d",
  mkTok .commaTk 3 2 12 "automatic ,",
  mkTok .eofT 4 1 13 ""]

/-- Claim C1 (code bug evidence): the printer round trip fails on the
valid document `\x7ba:"\b"\x7d`.  The document parses successfully (the `\b`
escape decodes to the control character U+0008 inside the string
fragment), Format re-emits the control character into the quoted string
without any escaping, and parsing the formatted output aborts with the
parser's "invalid character in string" error instead of reproducing the
AST, so `parse(format(parse(D)))` is a parse error rather than
`parse(D)`. -/
theorem c1_roundtrip_backspace_bug :
    (Parse "\x7ba:\"\\b\"\x7d").map Format = .ok "\x7b\n  a: \"\x08\"\n\x7d\n" ∧
    Parse "\x7b\n  a: \"\x08\"\n\x7d\n" =
      .error { pos := { line := 2, column := 7, byte := 8 },
               context := "invalid character in string: \x08" } := by
  constructor
  · show (parseTokens (lexAll "\x7ba:\"\\b\"\x7d".data)).map Format = _
    have e1 : lexAll "\x7ba:\"\\b\"\x7d".data = c1DToks := rfl
    have p1 : parseTokens c1DToks = .ok c1DNode := rfl
    rw [e1, p1]
    rfl
  · show parseTokens (lexAll "\x7b\n  a: \"\x08\"\n\x7d\n".data) = _
    have e2 : lexAll "\x7b\n  a: \"\x08\"\n\x7d\n".data = c1SToks := rfl
    rw [e2]
    rfl

/-- The token stream of `"\x7b a: 1\nb: 2 \x7d"`: the comma between the
members is the synthetic "automatic ," token inserted at the newline. -/
def c7Toks1 : List Token :=
  [mkTok .leftCurlyParen 1 1 0 "\x7b",
  mkTok .identifierTk 1 3 2 "a",
  mkTok .colonTk 1 4 3 ":",
  mkTok .numberTk 1 6 5 "1",
  mkTok .commaTk 1 7 6 "automatic ,",
  mkTok .identifierTk 2 1 7 "b",
  mkTok .colonTk 2 2 8 ":",
  mkTok .numberTk 2 4 10 "2",
  mkTok .rightCurlyParen 2 6 12 "\x7d",
  mkTok .eofT 2 7 13 ""]

/-- The token stream of `"\x7b a: 1, b: 2 \x7d"` with its explicit comma. -/
def c7Toks2 : List Token :=
  [mkTok .leftCurlyParen 1 1 0 "\x7b",
  mkTok .identifierTk 1 3 2 "a",
  mkTok .colonTk 1 4 3 ":",
  mkTok .numberTk 1 6 5 "1",
  mkTok .commaTk 1 7 6 ",",
  mkTok .identifierTk 1 9 8 "b",
  mkTok .colonTk 1 10 9 ":",
  mkTok .numberTk 1 12 11 "2",
  mkTok .rightCurlyParen 1 14 13 "\x7d",
  mkTok .eofT 1 15 14 ""]

/-- The NumberData of a small unsigned integer literal. -/
def uintNumData (v : Nat) (raw : String) : NumberData :=
  { isUint := true, isInt := true, isFloat := true, uint64 := v, int64 := v,
    float64 := ⟨v, 1⟩, raw := raw }

/-- The AST of `"\x7b a: 1\nb: 2 \x7d"`. -/
def c7Node1 : Node :=
  Node.dictN (Pos.mk 1 1 0) {} [Node.memberN (Pos.mk 1 3 2) {} (Node.identN (Pos.mk 1 3 2) {} "a")
    (Node.numberN (Pos.mk 1 6 5) {} (uintNumData 1 "1")),
  Node.memberN (Pos.mk 2 1 7) {} (Node.identN (Pos.mk 2 1 7) {} "b")
    (Node.numberN (Pos.mk 2 4 10) {} (uintNumData 2 "2"))]

/-- The AST of `"\x7b a: 1, b: 2 \x7d"`. -/
def c7Node2 : Node :=
  Node.dictN (Pos.mk 1 1 0) {} [Node.memberN (Pos.mk 1 3 2) {} (Node.identN (Pos.mk 1 3 2) {} "a")
    (Node.numberN (Pos.mk 1 6 5) {} (uintNumData 1 "1")),
  Node.memberN (Pos.mk 1 9 8) {} (Node.identN (Pos.mk 1 9 8) {} "b")
    (Node.numberN (Pos.mk 1 12 11) {} (uintNumData 2 "2"))]

/-- Claim C7: `"\x7b a: 1\nb: 2 \x7d"` parses to an AST structurally identical
(modulo positions) to that of `"\x7b a: 1, b: 2 \x7d"`; the two token streams
have identical type sequences, the newline stream containing the synthetic
"automatic ," comma token where the other has the explicit comma;
emitAutomaticComma emits exactly one synthetic comma token and clears the
pending flag when the flag is set and does nothing when it is clear; and
an explicit colon or comma scanned in lexText leaves the flag cleared. -/
theorem c7_automatic_comma :
    ((Parse "\x7b a: 1\nb: 2 \x7d").map stripPos = (Parse "\x7b a: 1, b: 2 \x7d").map stripPos) ∧
    ((lexAll "\x7b a: 1\nb: 2 \x7d".data).map (fun t => t.typ) =
      (lexAll "\x7b a: 1, b: 2 \x7d".data).map (fun t => t.typ)) ∧
    ((lexAll "\x7b a: 1\nb: 2 \x7d".data).map (fun t => t.val) =
      ["\x7b", "a", ":", "1", "automatic ,", "b", ":", "2", "\x7d", ""]) ∧
    (∀ l : LexState, l.insertComma = true →
      l.emitAutomaticComma.insertComma = false ∧
      l.emitAutomaticComma.tokens =
        l.tokens ++ [{ typ := .commaTk, pos := l.tokenPos, val := "automatic ," }]) ∧
    (∀ l : LexState, l.insertComma = false → l.emitAutomaticComma = l) ∧
    (∀ l : LexState, l.strMode = false → ∀ c, l.input[l.pos]? = some c → c = ':' ∨ c = ',' →
      (lexTextStep l).2.insertComma = false) := by
  have e1 : lexAll "\x7b a: 1\nb: 2 \x7d".data = c7Toks1 := rfl
  have e2 : lexAll "\x7b a: 1, b: 2 \x7d".data = c7Toks2 := rfl
  refine ⟨?_, ?_, ?_, ?_, ?_, ?_⟩
  · show (parseTokens (lexAll "\x7b a: 1\nb: 2 \x7d".data)).map stripPos =
      (parseTokens (lexAll "\x7b a: 1, b: 2 \x7d".data)).map stripPos
    have p1 : parseTokens c7Toks1 = .ok c7Node1 := rfl
    have p2 : parseTokens c7Toks2 = .ok c7Node2 := rfl
    rw [e1, e2, p1, p2]
    rfl
  · rw [e1, e2]
    rfl
  · rw [e1]
    rfl
  · intro l h
    simp [LexState.emitAutomaticComma, h]
  · intro l h
    simp [LexState.emitAutomaticComma, h]
  · intro l hs c hc hor
    rcases hor with h | h <;> subst h <;>
      simp [lexTextStep, LexState.nextRune, hc, hs, goIsSpace, goIsEndOfLine]


/-- Claim C3 (counterexample): decoding a Null node into an int
destination currently holding 5 leaves the 5 in place; the destination is
not set to its zero value as the claim states for every destination. -/
theorem c3_null_keeps_nonzero_scalar :
    decodeNull (Node.nullN zeroPos {}) { kind := .intK, value := .intV 5 } =
      .done (.intV 5) [] ∧
    GoVal.intV 5 ≠ RKind.zero .intK := by
  refine ⟨rfl, ?_⟩
  intro h
  exact absurd (GoVal.intV.inj h) (by decide)

/-- Claim C3 (amended): for every hook-free destination, decoding Null
stores the node reference into Node/ValueNode interface destinations and
the node struct into a NullNode struct destination; it actively resets
pointer, map, slice and other interface destinations to their zero (nil)
value; every other destination keeps its current value — hence a
destination that currently holds its zero value ends holding its zero
value.  No error is recorded in any of these cases. -/
theorem c3_decodeNull_amended (n0 : Node) (d : Dest)
    (hu : d.hasUnmarshaler = false) (ht : d.hasTextUnmarshaler = false) :
    ((d.kind = .iface .nodeIface ∨ d.kind = .iface .valueNodeIface) →
      decodeNull n0 d = .done (.nodeRef n0) []) ∧
    (d.kind = .structK "NullNode" → decodeNull n0 d = .done (.nodeStruct n0) []) ∧
    ((d.kind = .iface .emptyIface ∨ d.kind = .ptrK ∨ d.kind = .mapK ∨ d.kind = .sliceK) →
      decodeNull n0 d = .done d.kind.zero []) ∧
    (∀ s, s ≠ "NullNode" → d.kind = .structK s → decodeNull n0 d = .done d.value []) ∧
    ((d.kind = .intK ∨ d.kind = .stringK ∨ d.kind = .boolK ∨ d.kind = .floatK) →
      decodeNull n0 d = .done d.value []) ∧
    (d.value = d.kind.zero → ¬ (d.kind = .iface .nodeIface ∨ d.kind = .iface .valueNodeIface) →
      d.kind ≠ .structK "NullNode" → decodeNull n0 d = .done d.kind.zero []) := by
  refine ⟨?_, ?_, ?_, ?_, ?_, ?_⟩
  · rintro (h | h) <;> simp [decodeNull, hu, ht, h]
  · intro h
    simp [decodeNull, hu, ht, h]
  · rintro (h | h | h | h) <;> simp [decodeNull, hu, ht, h, RKind.zero]
  · intro s hs h
    simp [decodeNull, hu, ht, h, hs]
  · rintro (h | h | h | h) <;> simp [decodeNull, hu, ht, h]
  · intro hz hni hns
    have hz' : d.kind.zero = d.value := hz.symm
    rcases hk : d.kind with t | _ | _ | _ | s | _ | _ | _ | _
    · rcases t with _ | _ | _
      · exact absurd (Or.inl hk) hni
      · exact absurd (Or.inr hk) hni
      · simp [decodeNull, hu, ht, hk, RKind.zero]
    · simp [decodeNull, hu, ht, hk, RKind.zero]
    · simp [decodeNull, hu, ht, hk, RKind.zero]
    · simp [decodeNull, hu, ht, hk, RKind.zero]
    · have hsne : s ≠ "NullNode" := by
        intro h
        exact hns (by rw [hk, h])
      simp [decodeNull, hu, ht, hk, hsne]
      rw [← hz', hk]
    · simp [decodeNull, hu, ht, hk]
      rw [← hz', hk]
    · simp [decodeNull, hu, ht, hk]
      rw [← hz', hk]
    · simp [decodeNull, hu, ht, hk]
      rw [← hz', hk]
    · simp [decodeNull, hu, ht, hk]
      rw [← hz', hk]

/-- Witness for the amended C3 theorem at concrete inputs: a nil pointer
destination is reset to nil, and an int destination holding zero stays at
zero. -/
theorem c3_decodeNull_amended_witness :
    decodeNull (Node.nullN zeroPos {}) { kind := .ptrK, value := .nilV } =
      .done (RKind.zero .ptrK) [] ∧
    decodeNull (Node.nullN zeroPos {}) { kind := .intK, value := .intV 0 } =
      .done (RKind.zero .intK) [] :=
  ⟨(c3_decodeNull_amended (Node.nullN zeroPos {}) { kind := .ptrK, value := .nilV }
      rfl rfl).2.2.1 (Or.inr (Or.inl rfl)),
   (c3_decodeNull_amended (Node.nullN zeroPos {}) { kind := .intK, value := .intV 0 }
      rfl rfl).2.2.2.2.2 rfl (by simp) (by simp)⟩

/-- Claim C8: decoding a standalone variable node into a hook-free
destination whose type is not one of the raw-node capabilities: a found
value is assigned when assignable and converted when convertible; a
missing value in non-strict mode leaves the destination untouched with no
error recorded; a missing value in strict mode records an
UnmarshalUnknownVariableError carrying the variable's name and the
variable node's position, the destination again untouched. -/
theorem c8_decodeVariable (nm : String) (vpos ipos : Pos) (icg vcg : CommentGroup)
    (vars : Variables) (strict : Bool) (d : Dest)
    (hu : d.hasUnmarshaler = false) (ht : d.hasTextUnmarshaler = false)
    (hk1 : d.kind ≠ .iface .nodeIface) (hk2 : d.kind ≠ .iface .valueNodeIface)
    (hk3 : d.kind ≠ .structK "VariableNode") :
    (∀ val, vars.lookupName nm = some val → assignableTo val d.kind = true →
      decodeVariable (Node.varN vpos vcg ipos icg nm) vars strict d = .done val []) ∧
    (∀ val v', vars.lookupName nm = some val → assignableTo val d.kind = false →
      convertVal val d.kind = some v' →
      decodeVariable (Node.varN vpos vcg ipos icg nm) vars strict d = .done v' []) ∧
    (vars.lookupName nm = none →
      decodeVariable (Node.varN vpos vcg ipos icg nm) vars false d = .done d.value []) ∧
    (vars.lookupName nm = none →
      decodeVariable (Node.varN vpos vcg ipos icg nm) vars true d =
        .done d.value [.unknownVariable nm vpos]) := by
  refine ⟨?_, ?_, ?_, ?_⟩
  · intro val hl ha
    simp [decodeVariable, hu, ht, hk1, hk2, hk3, Node.varName, Node.position, hl, ha]
  · intro val v' hl ha hc
    simp [decodeVariable, hu, ht, hk1, hk2, hk3, Node.varName, Node.position, hl, ha, hc]
  · intro hl
    simp [decodeVariable, hu, ht, hk1, hk2, hk3, Node.varName, Node.position, hl]
  · intro hl
    simp [decodeVariable, hu, ht, hk1, hk2, hk3, Node.varName, Node.position, hl]

/-- Witness for C8 at concrete inputs: with Variables `(name: "x")` the
string destination receives "x"; with empty Variables the destination
keeps its zero value in non-strict mode, and in strict mode an
unknown-variable error carrying the name and the variable's position is
recorded. -/
theorem c8_decodeVariable_witness :
    decodeVariable (Node.varN (Pos.mk 3 2 10) {} zeroPos {} "name")
      { v := some [("name", .stringV "x")] } false { kind := .stringK, value := .stringV "" } =
      .done (.stringV "x") [] ∧
    decodeVariable (Node.varN (Pos.mk 3 2 10) {} zeroPos {} "name")
      { v := some [] } false { kind := .stringK, value := .stringV "" } =
      .done (.stringV "") [] ∧
    decodeVariable (Node.varN (Pos.mk 3 2 10) {} zeroPos {} "name")
      { v := some [] } true { kind := .stringK, value := .stringV "" } =
      .done (.stringV "") [.unknownVariable "name" (Pos.mk 3 2 10)] :=
  ⟨(c8_decodeVariable "name" (Pos.mk 3 2 10) zeroPos {} {}
      { v := some [("name", .stringV "x")] } false { kind := .stringK, value := .stringV "" }
      rfl rfl (by decide) (by decide) (by decide)).1 (.stringV "x") rfl rfl,
   (c8_decodeVariable "name" (Pos.mk 3 2 10) zeroPos {} {}
      { v := some [] } false { kind := .stringK, value := .stringV "" }
      rfl rfl (by decide) (by decide) (by decide)).2.2.1 rfl,
   (c8_decodeVariable "name" (Pos.mk 3 2 10) zeroPos {} {}
      { v := some [] } true { kind := .stringK, value := .stringV "" }
      rfl rfl (by decide) (by decide) (by decide)).2.2.2 rfl⟩

/-- Claim C10: for the zero Variables value, Lookup returns (nil, false)
for every node, and consequently decoding a standalone variable with the
zero Variables in default (non-strict) mode leaves any ordinary hook-free
destination at its current (zero) value with no error recorded — every
variable is treated as unknown. -/
theorem c10_zero_variables (n : Node) (d : Dest)
    (hu : d.hasUnmarshaler = false) (ht : d.hasTextUnmarshaler = false)
    (hk1 : d.kind ≠ .iface .nodeIface) (hk2 : d.kind ≠ .iface .valueNodeIface)
    (hk3 : d.kind ≠ .structK "VariableNode") :
    ({} : Variables).Lookup n = (none, false) ∧
    decodeVariable n {} false d = .done d.value [] := by
  constructor
  · rfl
  · simp [decodeVariable, hu, ht, hk1, hk2, hk3, Variables.lookupName]

/-- Witness for C10 at a concrete variable node and destination. -/
theorem c10_zero_variables_witness :
    ({} : Variables).Lookup (Node.varN zeroPos {} zeroPos {} "id") = (none, false) ∧
    decodeVariable (Node.varN zeroPos {} zeroPos {} "id") {} false
      { kind := .intK, value := .intV 0 } = .done (.intV 0) [] :=
  c10_zero_variables (Node.varN zeroPos {} zeroPos {} "id")
    { kind := .intK, value := .intV 0 } rfl rfl (by decide) (by decide) (by decide)


/-- Claim C6: for every input whose top-level value parses successfully
but is not a dictionary, Parse returns exactly the single error
"top level value in SC document must be a dictionary" positioned at the
start position of the offending top-level node (parser.parse overwrites
the lookahead token's position with the node's position before raising
the error). -/
theorem c6_top_level_dictionary_error (input : String) (n : Node)
    (hok : ∃ p, parseValue (2 * (lexAll input.data).length + 16)
      { toks := lexAll input.data } = .ok (n, p))
    (hnd : n.typ ≠ .dictionaryT) :
    Parse input =
      .error { pos := n.position,
               context := "top level value in SC document must be a dictionary" } := by
  obtain ⟨pst, hp⟩ := hok
  show parseTokens (lexAll input.data) = _
  unfold parseTokens
  simp only [hp, hnd, bind, Except.bind, ite_not, if_neg, ne_eq, not_false_iff, ite_true,
    if_true, reduceCtorEq]

/-- Witness for C6: the document "5", whose top-level value is the number
node at line 1, column 1 (not the position of the lookahead EOF token at
column 2). -/
theorem c6_top_level_dictionary_error_witness :
    Parse "5" =
      .error { pos := Pos.mk 1 1 0,
               context := "top level value in SC document must be a dictionary" } :=
  c6_top_level_dictionary_error "5"
    (Node.numberN (Pos.mk 1 1 0) {} (uintNumData 5 "5"))
    ⟨_, rfl⟩ (by decide)


/- Supporting facts about the key ordering used by encodeMap. -/

instance : IsTotal (String × GoVal) (fun a b => a.1.data ≤ b.1.data) :=
  ⟨fun a b => le_total a.1.data b.1.data⟩

instance : IsTrans (String × GoVal) (fun a b => a.1.data ≤ b.1.data) :=
  ⟨fun _ _ _ h1 h2 => le_trans h1 h2⟩

instance : IsAntisymm (String × GoVal) (fun a b => a.1.data < b.1.data) :=
  ⟨fun _ _ h1 h2 => (lt_asymm h1 h2).elim⟩

/-- Distinct strings have distinct rune lists, so a weak key comparison
between them is strict. -/
theorem string_data_lt_of_le_of_ne {a b : String} (h : a.data ≤ b.data)
    (hne : a ≠ b) : a.data < b.data := by
  refine lt_of_le_of_ne h (fun hd => hne ?_)
  cases a; cases b; cases hd; rfl

/-- The member list built by mapMembers carries exactly the entry keys, in
order. -/
theorem mapMembers_keys (l : List (String × GoVal)) (ms : List Node)
    (h : mapMembers l = .ok ms) : ms.map memberKeyStr = l.map Prod.fst := by
  induction l generalizing ms with
  | nil =>
    simp only [mapMembers] at h
    cases h
    rfl
  | cons hd tl ih =>
    obtain ⟨s, v⟩ := hd
    simp only [mapMembers, bind, Except.bind] at h
    cases he : encodeGoVal v with
    | error e => rw [he] at h; cases h
    | ok vn =>
      rw [he] at h
      cases hr : mapMembers tl with
      | error e => rw [hr] at h; cases h
      | ok ms' =>
        rw [hr] at h
        cases h
        have hk : memberKeyStr (Node.memberN zeroPos {} (encodeKey s) vn) = s := by
          unfold encodeKey
          split <;> rfl
        simp [hk, ih ms' hr]

/-- Entry lists that are sorted by key and have no duplicate keys are
strictly sorted by key. -/
theorem entries_pairwise_lt (l : List (String × GoVal))
    (hs : l.Pairwise (fun a b => a.1.data ≤ b.1.data)) (hn : (l.map Prod.fst).Nodup) :
    l.Pairwise (fun a b => a.1.data < b.1.data) := by
  have hne : l.Pairwise (fun a b : String × GoVal => a.1 ≠ b.1) := List.pairwise_map.mp hn
  exact (hs.and hne).imp (fun h => string_data_lt_of_le_of_ne h.1 h.2)

/-- On entry lists with distinct keys, sorting is invariant under
permutation of the input: the comparison sort has a unique result. -/
theorem insertionSort_perm_invariant (entries entries' : List (String × GoVal))
    (hperm : entries.Perm entries') (hnodup : (entries.map Prod.fst).Nodup) :
    List.insertionSort (fun a b => a.1.data ≤ b.1.data) entries =
      List.insertionSort (fun a b => a.1.data ≤ b.1.data) entries' := by
  have hnodup' : (entries'.map Prod.fst).Nodup := ((hperm.map Prod.fst).nodup_iff).mp hnodup
  have hp1 := List.perm_insertionSort (fun a b : String × GoVal => a.1.data ≤ b.1.data) entries
  have hp2 := List.perm_insertionSort (fun a b : String × GoVal => a.1.data ≤ b.1.data) entries'
  have hs1 := List.sorted_insertionSort (fun a b : String × GoVal => a.1.data ≤ b.1.data) entries
  have hs2 := List.sorted_insertionSort (fun a b : String × GoVal => a.1.data ≤ b.1.data) entries'
  have hn1 : ((List.insertionSort (fun a b : String × GoVal => a.1.data ≤ b.1.data) entries).map
      Prod.fst).Nodup := ((hp1.map Prod.fst).nodup_iff).mpr hnodup
  have hn2 : ((List.insertionSort (fun a b : String × GoVal => a.1.data ≤ b.1.data) entries').map
      Prod.fst).Nodup := ((hp2.map Prod.fst).nodup_iff).mpr hnodup'
  exact List.eq_of_perm_of_sorted (hp1.trans (hperm.trans hp2.symm))
    (entries_pairwise_lt _ hs1 hn1) (entries_pairwise_lt _ hs2 hn2)

/-- Claim C2: encodeMap emits the dictionary members sorted
lexicographically by key string, independently of the map's native
iteration order: for entry lists that are permutations of each other (with
the distinct keys of a map), the encoded node is identical, it is a
dictionary whose member keys are strictly increasing, and those keys are
exactly the map's keys. -/
theorem c2_encodeMap_sorted (entries entries' : List (String × GoVal))
    (hperm : entries.Perm entries') (hnodup : (entries.map Prod.fst).Nodup)
    (n : Node) (hok : encodeMap (some entries) = .ok n) :
    encodeMap (some entries') = .ok n ∧
    ∃ ms, n = Node.dictN zeroPos {} ms ∧
      List.Sorted (fun x y : String => x.data < y.data) (ms.map memberKeyStr) ∧
      (ms.map memberKeyStr).Perm (entries.map Prod.fst) := by
  have hsorteq := insertionSort_perm_invariant entries entries' hperm hnodup
  constructor
  · show (mapMembers (List.insertionSort (fun a b => a.1.data ≤ b.1.data) entries')).map
      (fun ms => Node.dictN zeroPos {} ms) = .ok n
    rw [← hsorteq]
    exact hok
  · simp only [encodeMap] at hok
    cases hm : mapMembers (List.insertionSort (fun a b => a.1.data ≤ b.1.data) entries) with
    | error e => rw [hm] at hok; cases hok
    | ok ms =>
      rw [hm] at hok
      cases hok
      refine ⟨ms, rfl, ?_, ?_⟩
      · rw [mapMembers_keys _ _ hm]
        have hp1 := List.perm_insertionSort
          (fun a b : String × GoVal => a.1.data ≤ b.1.data) entries
        have hs1 := List.sorted_insertionSort
          (fun a b : String × GoVal => a.1.data ≤ b.1.data) entries
        have hn1 : ((List.insertionSort (fun a b : String × GoVal => a.1.data ≤ b.1.data)
            entries).map Prod.fst).Nodup := ((hp1.map Prod.fst).nodup_iff).mpr hnodup
        exact List.pairwise_map.mpr (entries_pairwise_lt _ hs1 hn1)
      · rw [mapMembers_keys _ _ hm]
        exact (List.perm_insertionSort
          (fun a b : String × GoVal => a.1.data ≤ b.1.data) entries).map Prod.fst

/-- The NumberData of a programmatically built signed integer node. -/
def intOnlyNum (i : Int) : NumberData := { isInt := true, int64 := i }

/-- The encoding of the map with keys b and a, with member a first. -/
def c2Node : Node :=
  Node.dictN zeroPos {}
    [Node.memberN zeroPos {} (Node.identN zeroPos {} "a") (Node.numberN zeroPos {} (intOnlyNum 2)),
    Node.memberN zeroPos {} (Node.identN zeroPos {} "b") (Node.numberN zeroPos {} (intOnlyNum 1))]

/-- Witness for C2: the mapping with keys b:1 and a:2 encodes member a
before member b in both iteration orders. -/
theorem c2_encodeMap_sorted_witness :
    encodeMap (some [("b", GoVal.intV 1), ("a", GoVal.intV 2)]) = .ok c2Node ∧
    encodeMap (some [("a", GoVal.intV 2), ("b", GoVal.intV 1)]) = .ok c2Node ∧
    (∃ ms, c2Node = Node.dictN zeroPos {} ms ∧
      List.Sorted (fun x y : String => x.data < y.data) (ms.map memberKeyStr) ∧
      (ms.map memberKeyStr).Perm ([("b", GoVal.intV 1), ("a", GoVal.intV 2)].map Prod.fst)) := by
  have h := c2_encodeMap_sorted [("b", GoVal.intV 1), ("a", GoVal.intV 2)]
    [("a", GoVal.intV 2), ("b", GoVal.intV 1)]
    (List.Perm.swap ("a", GoVal.intV 2) ("b", GoVal.intV 1) []) (by decide) c2Node rfl
  exact ⟨rfl, h.1, h.2⟩


/- Supporting facts about strconv.ParseUint/ParseInt on integer-shaped
literals. -/

/-- ParseUint on a nonempty all-digit string in range returns its value. -/
theorem goParseUint_digits (digits : List Char) (hne : digits ≠ [])
    (hd : digits.all Char.isDigit = true) (hv : digitsVal digits < Nat.pow 2 64) :
    goParseUint (String.mk digits) = some (digitsVal digits) := by
  simp only [goParseUint]
  rw [if_pos ⟨hne, hd⟩, if_pos hv]

/-- ParseUint rejects any string with a leading minus sign. -/
theorem goParseUint_neg (digits : List Char) :
    goParseUint (String.mk ('-' :: digits)) = none := by
  simp only [goParseUint]
  rw [if_neg]
  intro h
  simp only [List.all_cons, Bool.and_eq_true] at h
  exact absurd h.2.1 (by decide)

/-- ParseInt on a nonempty all-digit string below 2^63 returns its value. -/
theorem goParseInt_pos (digits : List Char) (hne : digits ≠ [])
    (hd : digits.all Char.isDigit = true) (hv : digitsVal digits < Nat.pow 2 63) :
    goParseInt (String.mk digits) = some ((digitsVal digits : Int)) := by
  obtain ⟨c, rest, rfl⟩ : ∃ c rest, digits = c :: rest := by
    cases digits with
    | nil => exact absurd rfl hne
    | cons c r => exact ⟨c, r, rfl⟩
  simp only [List.all_cons, Bool.and_eq_true] at hd
  have hcm : ¬ c = '-' := fun h => absurd (h ▸ hd.1) (by decide)
  have hcp : ¬ c = '+' := fun h => absurd (h ▸ hd.1) (by decide)
  simp only [goParseInt, if_neg hcm, if_neg hcp]
  rw [if_pos ⟨hne, by simp [List.all_cons, hd.1, hd.2]⟩]
  simp only [Bool.false_eq_true, if_false]
  rw [if_pos hv]

/-- ParseInt on a minus sign followed by digits with value at most 2^63
returns the negated value. -/
theorem goParseInt_neg (digits : List Char) (hne : digits ≠ [])
    (hd : digits.all Char.isDigit = true) (hv : digitsVal digits ≤ Nat.pow 2 63) :
    goParseInt (String.mk ('-' :: digits)) = some (-(digitsVal digits : Int)) := by
  simp only [goParseInt, if_pos rfl]
  rw [if_pos ⟨hne, hd⟩]
  simp only [if_true]
  rw [if_pos hv]

/-- Claim C4: a number literal written without a decimal point or exponent
(the lexer produces such tokens as an optional minus sign followed by
decimal digits) whose value fits the signed 64-bit range yields a
NumberNode with IsInt set and Int64 the literal's value, and when that
value is non-negative also IsUint set with the matching Uint64; the
literal -0 (whose ParseUint fails) hits the explicit fix-up and is not a
parse error. -/
theorem c4_int_literal_flags (neg : Bool) (digits : List Char)
    (hne : digits ≠ []) (hd : digits.all Char.isDigit = true)
    (hfit : if neg then digitsVal digits ≤ Nat.pow 2 63
      else digitsVal digits < Nat.pow 2 63) :
    ∃ nd : NumberData,
      newNumber (String.mk ((if neg then ['-'] else []) ++ digits)) = .ok nd ∧
      nd.isInt = true ∧
      nd.int64 = (if neg then -(digitsVal digits : Int) else (digitsVal digits : Int)) ∧
      (0 ≤ nd.int64 → nd.isUint = true ∧ (nd.uint64 : Int) = nd.int64) := by
  cases neg with
  | false =>
    simp only [Bool.false_eq_true, if_false, List.nil_append]
    have hv64 : digitsVal digits < Nat.pow 2 64 := lt_trans hfit (by decide)
    have hu := goParseUint_digits digits hne hd hv64
    have hi := goParseInt_pos digits hne hd hfit
    by_cases h0 : ((digitsVal digits : Int)) = 0
    · have hres : newNumber (String.mk digits) = .ok
          { isUint := true, isInt := true, isFloat := true, uint64 := 0,
            int64 := (digitsVal digits : Int),
            float64 := float64OfInt (digitsVal digits : Int),
            raw := String.mk digits } := by
        simp only [newNumber, hu, hi]
        rw [if_pos h0]
        rfl
      exact ⟨_, hres, rfl, rfl, fun _ => ⟨rfl, by simp [h0]⟩⟩
    · have hres : newNumber (String.mk digits) = .ok
          { isUint := true, isInt := true, isFloat := true,
            uint64 := digitsVal digits, int64 := (digitsVal digits : Int),
            float64 := float64OfInt (digitsVal digits : Int),
            raw := String.mk digits } := by
        simp only [newNumber, hu, hi]
        rw [if_neg h0]
        rfl
      exact ⟨_, hres, rfl, rfl, fun _ => ⟨rfl, rfl⟩⟩
  | true =>
    simp only [if_true, List.singleton_append]
    have hu := goParseUint_neg digits
    have hi := goParseInt_neg digits hne hd hfit
    by_cases h0 : digitsVal digits = 0
    · have hz : (-(digitsVal digits : Int)) = 0 := by simp [h0]
      have hres : newNumber (String.mk ('-' :: digits)) = .ok
          { isUint := true, isInt := true, isFloat := true, uint64 := 0,
            int64 := -(digitsVal digits : Int),
            float64 := float64OfInt (-(digitsVal digits : Int)),
            raw := String.mk ('-' :: digits) } := by
        simp only [newNumber, hu, hi]
        rw [if_pos hz]
        rfl
      exact ⟨_, hres, rfl, rfl, fun _ => ⟨rfl, by simp [hz]⟩⟩
    · have hz : ¬ (-(digitsVal digits : Int)) = 0 := by
        simp only [neg_eq_zero]
        exact_mod_cast h0
      have hres : newNumber (String.mk ('-' :: digits)) = .ok
          { isInt := true, int64 := -(digitsVal digits : Int), isFloat := true,
            float64 := float64OfInt (-(digitsVal digits : Int)),
            raw := String.mk ('-' :: digits) } := by
        simp only [newNumber, hu, hi]
        rw [if_neg hz]
        rfl
      refine ⟨_, hres, rfl, rfl, fun hge => absurd hge ?_⟩
      have h1 : 1 ≤ digitsVal digits := Nat.one_le_iff_ne_zero.mpr h0
      have h2 : (1 : Int) ≤ (digitsVal digits : Int) := by exact_mod_cast h1
      simp only [not_le]
      omega

/-- Witness for C4 at the literal -0: no parse error, IsInt with Int64 = 0,
and via the fix-up IsUint with Uint64 = 0. -/
theorem c4_int_literal_flags_witness :
    (['0'] : List Char) ≠ [] ∧
    ∃ nd : NumberData,
      newNumber (String.mk ['-', '0']) = .ok nd ∧
      nd.isInt = true ∧
      nd.int64 = -((digitsVal ['0'] : Int)) ∧
      (0 ≤ nd.int64 → nd.isUint = true ∧ (nd.uint64 : Int) = nd.int64) := by
  refine ⟨by decide, ?_⟩
  have h := c4_int_literal_flags true ['0'] (by decide) (by decide) (by decide)
  simpa using h


/- Supporting facts about float64 value equality (Go == on float64). -/

/-- Value equality of the float64 model is reflexive. -/
theorem Q.valEq_self (a : Q) : Q.valEq a a = true := by
  simp [Q.valEq]

/-- Value equality of the float64 model is symmetric. -/
theorem Q.valEq_symm {a b : Q} (h : Q.valEq a b = true) : Q.valEq b a = true := by
  simp only [Q.valEq, decide_eq_true_eq] at h ⊢
  exact h.symm

/-- Claim C9: every NumberNode successfully returned by newNumber has at
least one of IsUint, IsInt, IsFloat set, and whenever IsInt is set IsFloat
is set too with Float64 equal (as a float64 value, Go ==) to the float64
conversion of Int64. -/
theorem c9_numbernode_invariant (raw : String) (nd : NumberData)
    (hok : newNumber raw = .ok nd) :
    (nd.isUint = true ∨ nd.isInt = true ∨ nd.isFloat = true) ∧
    (nd.isInt = true → nd.isFloat = true ∧
      Q.valEq nd.float64 (float64OfInt nd.int64) = true) := by
  simp only [newNumber] at hok
  cases hu : goParseUint raw with
  | some u =>
    rw [hu] at hok
    cases hi : goParseInt raw with
    | some i =>
      rw [hi] at hok
      dsimp only at hok
      by_cases h0 : i = 0
      · rw [if_pos h0] at hok
        rw [if_pos rfl] at hok
        injection hok with h
        subst h
        exact ⟨Or.inr (Or.inl rfl), fun _ => ⟨rfl, Q.valEq_self _⟩⟩
      · rw [if_neg h0] at hok
        rw [if_pos rfl] at hok
        injection hok with h
        subst h
        exact ⟨Or.inr (Or.inl rfl), fun _ => ⟨rfl, Q.valEq_self _⟩⟩
    | none =>
      rw [hi] at hok
      dsimp only at hok
      rw [if_neg (by decide : ¬ (false = true))] at hok
      cases hf : goParseFloat raw with
      | some f =>
        rw [hf] at hok
        dsimp only at hok
        split at hok
        · exact Except.noConfusion hok
        · split at hok
          next hg1 =>
            split at hok
            next hg2 =>
              split at hok
              next => exact Except.noConfusion hok
              next =>
                injection hok with h
                subst h
                exact ⟨Or.inr (Or.inr rfl), fun _ => ⟨rfl, Q.valEq_symm hg1.2⟩⟩
            next hg2 =>
              split at hok
              next => exact Except.noConfusion hok
              next =>
                injection hok with h
                subst h
                exact ⟨Or.inr (Or.inr rfl), fun _ => ⟨rfl, Q.valEq_symm hg1.2⟩⟩
          next hg1 =>
            split at hok
            next hg2 =>
              split at hok
              next => exact Except.noConfusion hok
              next =>
                injection hok with h
                subst h
                exact ⟨Or.inr (Or.inr rfl), fun h2 => nomatch h2⟩
            next hg2 =>
              split at hok
              next => exact Except.noConfusion hok
              next =>
                injection hok with h
                subst h
                exact ⟨Or.inr (Or.inr rfl), fun h2 => nomatch h2⟩
      | none =>
        rw [hf] at hok
        dsimp only at hok
        rw [if_neg (by decide)] at hok
        injection hok with h
        subst h
        exact ⟨Or.inl rfl, fun h => nomatch h⟩
  | none =>
    rw [hu] at hok
    cases hi : goParseInt raw with
    | some i =>
      rw [hi] at hok
      dsimp only at hok
      by_cases h0 : i = 0
      · rw [if_pos h0] at hok
        rw [if_pos rfl] at hok
        injection hok with h
        subst h
        exact ⟨Or.inr (Or.inl rfl), fun _ => ⟨rfl, Q.valEq_self _⟩⟩
      · rw [if_neg h0] at hok
        rw [if_pos rfl] at hok
        injection hok with h
        subst h
        exact ⟨Or.inr (Or.inl rfl), fun _ => ⟨rfl, Q.valEq_self _⟩⟩
    | none =>
      rw [hi] at hok
      dsimp only at hok
      rw [if_neg (by decide : ¬ (false = true))] at hok
      cases hf : goParseFloat raw with
      | some f =>
        rw [hf] at hok
        dsimp only at hok
        split at hok
        · exact Except.noConfusion hok
        · split at hok
          next hg1 =>
            split at hok
            next hg2 =>
              split at hok
              next => exact Except.noConfusion hok
              next =>
                injection hok with h
                subst h
                exact ⟨Or.inr (Or.inr rfl), fun _ => ⟨rfl, Q.valEq_symm hg1.2⟩⟩
            next hg2 =>
              split at hok
              next => exact Except.noConfusion hok
              next =>
                injection hok with h
                subst h
                exact ⟨Or.inr (Or.inr rfl), fun _ => ⟨rfl, Q.valEq_symm hg1.2⟩⟩
          next hg1 =>
            split at hok
            next hg2 =>
              split at hok
              next => exact Except.noConfusion hok
              next =>
                injection hok with h
                subst h
                exact ⟨Or.inr (Or.inr rfl), fun h2 => nomatch h2⟩
            next hg2 =>
              split at hok
              next => exact Except.noConfusion hok
              next =>
                injection hok with h
                subst h
                exact ⟨Or.inr (Or.inr rfl), fun h2 => nomatch h2⟩
      | none =>
        rw [hf] at hok
        dsimp only at hok
        rw [if_pos (by decide)] at hok
        exact Except.noConfusion hok

/-- Witness for C9 at the literal 1e4, which enters through the float path
and is reclassified as an int. -/
theorem c9_numbernode_invariant_witness :
    ∃ nd : NumberData, newNumber "1e4" = .ok nd ∧
    ((nd.isUint = true ∨ nd.isInt = true ∨ nd.isFloat = true) ∧
    (nd.isInt = true → nd.isFloat = true ∧
      Q.valEq nd.float64 (float64OfInt nd.int64) = true)) := by
  refine ⟨{ isUint := true, isInt := true, isFloat := true, uint64 := 10000,
            int64 := 10000, float64 := ⟨10000, 1⟩, raw := "1e4" }, ?_, ?_⟩
  · rfl
  · exact c9_numbernode_invariant "1e4" _ rfl


/- Supporting facts for the number-error claim. -/

/-- The head-comment loop consumes nothing when the next token is not a
comment. -/
theorem parseHeadComments_noComment (f : Nat) (tok : Token) (rest : List Token)
    (h : ¬ tok.typ = .commentTk) :
    parseHeadComments (f + 1) { toks := tok :: rest } =
      ([], { toks := rest, token := tok, hasPeeked := true }) := by
  have hp : PState.peek { toks := tok :: rest } =
      (tok, { toks := rest, token := tok, hasPeeked := true }) := rfl
  simp only [parseHeadComments, hp]
  rw [if_neg h]

/-- Claim C5: a number literal matched by none of the three numeric
representations (ParseUint, ParseInt and ParseFloat all fail) makes
newNumber fail with "invalid number syntax"; a literal that parses as a
float but is written without a decimal point or exponent and does not fit
the signed 64-bit range makes newNumber fail with "integer overflow"; and
the parser surfaces any newNumber failure as a parse error positioned at
the number token. -/
theorem c5_number_errors (raw : String) :
    (goParseUint raw = none → goParseInt raw = none → goParseFloat raw = none →
      newNumber raw = .error ("invalid number syntax: " ++ goQuote raw)) ∧
    (∀ f : Q, goParseInt raw = none → goParseFloat raw = some f →
      (raw.data.any fun c => c = '.' || c = 'e' || c = 'E') = false →
      newNumber raw = .error ("integer overflow: " ++ goQuote raw)) ∧
    (∀ (f : Nat) (tok : Token) (rest : List Token) (e : String),
      tok.typ = .numberTk → tok.val = raw → newNumber raw = .error e →
      parseValue (f + 1) { toks := tok :: rest } =
        .error { pos := tok.pos, context := e }) := by
  refine ⟨fun hu hi hf => ?_, fun f hi hf ha => ?_, fun f tok rest e htyp hval herr => ?_⟩
  · simp only [newNumber, hu, hi, hf]
    rfl
  · cases hu : goParseUint raw with
    | some u =>
      simp only [newNumber, hu, hi, hf, ha]
      rfl
    | none =>
      simp only [newNumber, hu, hi, hf, ha]
      rfl
  · obtain ⟨ttyp, tpos, tval⟩ := tok
    simp only at htyp hval
    subst htyp hval
    rw [show parseValue (f + 1) { toks := (⟨.numberTk, tpos, tval⟩ : Token) :: rest } =
        (match newNumber tval with
         | .error e2 => .error { pos := tpos, context := e2 }
         | .ok nd => attachValueComments (Node.numberN tpos {} nd) []
             { toks := rest, token := ⟨.numberTk, tpos, tval⟩, hasPeeked := false }) from rfl]
    rw [herr]

/-- Witness for C5: the literal 12a satisfies no representation and fails
with invalid number syntax; the twenty-digit literal 99999999999999999999
float-parses but overflows int64 and fails with integer overflow; the
parser turns the latter failure into a parse error at the number token's
position 3:5. -/
theorem c5_number_errors_witness :
    newNumber "12a" = .error ("invalid number syntax: " ++ goQuote "12a") ∧
    newNumber "99999999999999999999" =
      .error ("integer overflow: " ++ goQuote "99999999999999999999") ∧
    parseValue 8
        { toks := [{ typ := .numberTk, pos := { line := 3, column := 5, byte := 11 },
                     val := "99999999999999999999" }] } =
      .error { pos := { line := 3, column := 5, byte := 11 },
               context := "integer overflow: \"99999999999999999999\"" } := by
  refine ⟨(c5_number_errors "12a").1 rfl rfl rfl, ?_, ?_⟩
  · exact (c5_number_errors "99999999999999999999").2.1 _ rfl rfl rfl
  · exact (c5_number_errors "99999999999999999999").2.2 7
      { typ := .numberTk, pos := { line := 3, column := 5, byte := 11 },
        val := "99999999999999999999" } [] _ rfl rfl
      ((c5_number_errors "99999999999999999999").2.1 _ rfl rfl rfl)

end SC
